import Mathlib

/-!
Verification of the soultalk-tool job-orchestration core.

Shallow embedding of:
- the multi-provider retry/failover executor shared by
  `src/server/services/transcription.js` (`transcribe`) and
  `src/server/services/ai-matching.js` (`match`);
- the provider-response extraction of `callOpenAIFormat` / `callGoogleGemini`;
- `buildPrompt` of `ai-matching.js`;
- the input-merge spread expressions of `runMVPipeline` / `runAudioPipeline`;
- the job runner state machine of `src/server/services/job-runner.js`
  (`runJob`, `runStep`, `pause`, `cancel`, the two pipelines) together with
  the per-job database operations of `src/server/database.js`;
- `smartSplit` of the text-processor service.

JavaScript strings are modelled as Lean `String` (or `List Char` for the
character-level text processor), JS objects with dynamic keys as
`String → Option String`, and fallible async calls as `Except String`
values supplied by oracles.  Awaited delays (`delay(ms)`) have no
observable effect on any state we track and are omitted.
-/

namespace SoulTalk

/-- JS truthiness of an optional string field: `undefined`/`null`/`""` are
falsy, any non-empty string is truthy. -/
def truthy : Option String → Bool
  | none => false
  | some s => s ≠ ""

/-! ## Retry/Failover executor

`transcription.js` lines 106-174 (`transcribe`) and `ai-matching.js`
lines 100-172 (`match`) contain the same provider loop:

    for (const apiId of apiOrder) {
      const api = apis[apiId];
      if (!api || !api.apiKey) { continue; }
      for (let attempt = 1; attempt <= retryConfig.maxAttempts; attempt++) {
        try { ... return { success: true, ... }; }
        catch (error) { lastError = error; totalRetries++; ... }
      }
    }
    throw new Error(`... ${totalRetries} ... ${lastError?.message || '未知'}`);

We embed the loop once, parameterised by the per-attempt operation
(an oracle `outcome : providerId → attemptNumber → Except String String`),
and instantiate it for both services.  The trace records every attempt
actually performed as a `(providerId, attemptNumber)` pair. -/

/-- A provider configuration as assembled by `getApiConfigs`:
identity plus whether its `apiKey` setting is a truthy value. -/
structure ApiCfg where
  id : String
  hasKey : Bool
deriving Repr, DecidableEq

/-- The inner retry loop `for (attempt = 1; attempt <= maxAttempts; attempt++)`
for one provider.  `start` is the current attempt number, `fuel` the number
of attempts still allowed.  Returns the list of attempt numbers performed
and either the first success or `(failedAttempts, lastErrorMessage)`. -/
def tryProv (outcome : Nat → Except String String) :
    Nat → Nat → List Nat × Except (Nat × Option String) String
  | _, 0 => ([], .error (0, none))
  | start, fuel + 1 =>
    match outcome start with
    | .ok v => ([start], .ok v)
    | .error e =>
      let r := tryProv outcome (start + 1) fuel
      (start :: r.1,
        match r.2 with
        | .ok v => .ok v
        | .error (n, le) => .error (n + 1, some (le.getD e)))

/-- The outer provider loop.  `tot` and `last` thread `totalRetries` and
`lastError` across providers.  Providers that are unknown or lack an
`apiKey` are skipped (`if (!api || !api.apiKey) continue`). -/
def failoverGo (apis : String → Option ApiCfg) (maxAttempts : Nat)
    (outcome : String → Nat → Except String String) :
    List String → Nat → Option String →
    List (String × Nat) × Except (Nat × Option String) String
  | [], tot, last => ([], .error (tot, last))
  | apiId :: rest, tot, last =>
    match apis apiId with
    | none => failoverGo apis maxAttempts outcome rest tot last
    | some api =>
      if api.hasKey then
        let r := tryProv (outcome apiId) 1 maxAttempts
        let tr := r.1.map (fun n => (apiId, n))
        match r.2 with
        | .ok v => (tr, .ok v)
        | .error (n, le) =>
          let r2 := failoverGo apis maxAttempts outcome rest (tot + n) (le.or last)
          (tr ++ r2.1, r2.2)
      else failoverGo apis maxAttempts outcome rest tot last

/-- Entry point of the failover executor: run the providers of `apiOrder`
in order with up to `maxAttempts` attempts each. -/
def runFailover (apis : String → Option ApiCfg) (apiOrder : List String)
    (maxAttempts : Nat) (outcome : String → Nat → Except String String) :
    List (String × Nat) × Except (Nat × Option String) String :=
  failoverGo apis maxAttempts outcome apiOrder 0 none

/-- `if (preferredApi && apis[preferredApi]) apiOrder =
[preferredApi, ...apiOrder.filter(id => id !== preferredApi)]` —
shared by both services. -/
def effectiveOrder (apis : String → Option ApiCfg) (preferred : Option String)
    (apiOrder : List String) : List String :=
  match preferred with
  | none => apiOrder
  | some p =>
    if (apis p).isSome then p :: apiOrder.filter (fun i => i ≠ p)
    else apiOrder

/-- Aggregate error thrown by `transcribe` when every provider/attempt
failed (`transcription.js` line 173). -/
def transcribeAggregateMsg (tot : Nat) (last : Option String) : String :=
  "所有語音識別 API 均失敗（共 " ++ toString tot ++ " 次嘗試）。最後錯誤: "
    ++ last.getD "未知"

/-- Aggregate error thrown by `match` (`ai-matching.js` line 171). -/
def matchAggregateMsg (tot : Nat) (last : Option String) : String :=
  "所有 AI API 均失敗（共 " ++ toString tot ++ " 次）。最後錯誤: "
    ++ last.getD "未知"

/-- `TranscriptionService.transcribe`, reduced to its provider/retry
control flow: trace of attempts plus result (data token or thrown
error message). -/
def transcribeRun (apis : String → Option ApiCfg) (apiOrder : List String)
    (maxAttempts : Nat) (preferred : Option String)
    (outcome : String → Nat → Except String String) :
    List (String × Nat) × Except String String :=
  let r := runFailover apis (effectiveOrder apis preferred apiOrder) maxAttempts outcome
  (r.1, r.2.mapError (fun p => transcribeAggregateMsg p.1 p.2))

/-- `AIMatchingService.match`, reduced to the same control flow. -/
def matchRun (apis : String → Option ApiCfg) (apiOrder : List String)
    (maxAttempts : Nat) (preferred : Option String)
    (outcome : String → Nat → Except String String) :
    List (String × Nat) × Except String String :=
  let r := runFailover apis (effectiveOrder apis preferred apiOrder) maxAttempts outcome
  (r.1, r.2.mapError (fun p => matchAggregateMsg p.1 p.2))

/-! ## Alignment provider response handling (`ai-matching.js`)

`callOpenAIFormat` (lines 240-271) and `callGoogleGemini` (lines 276-303)
turn an HTTP response into either the raw model text or a thrown error.
We model the response shapes the code inspects.  Note that the Google
Gemini REST response carries `candidates[0].finishReason`, which the
source never reads; it is included in the model because the claim is
about what happens when the provider signals a length-limited finish. -/

/-- An OpenAI-compatible chat-completions response as far as
`callOpenAIFormat` inspects it. -/
structure OpenAIResp where
  ok : Bool
  status : Nat
  errorText : String
  /-- `data.choices?.[0]?.message?.content` (`none` if the path is absent). -/
  content : Option String
  /-- `data.choices[0].finish_reason`. -/
  finishReason : Option String
deriving Repr, DecidableEq

/-- A Google Gemini `generateContent` response as far as the code could
inspect it. -/
structure GeminiResp where
  ok : Bool
  status : Nat
  errorText : String
  /-- `data.candidates?.[0]?.content?.parts?.[0]?.text`. -/
  text : Option String
  /-- `data.candidates[0].finishReason` — present in the API response
  (`"MAX_TOKENS"` on a length-limited finish) but never read by the code. -/
  finishReason : Option String
deriving Repr, DecidableEq

/-- The distinct truncation error of `callOpenAIFormat` line 267. -/
def truncatedMsg : String := "輸出被截斷（超過 token 限制）"

/-- `callOpenAIFormat`, from the point where the response is available:
transport error on `!response.ok`, empty-result error when the content
path is falsy, the distinct truncation error when
`finish_reason === 'length'`, otherwise the content. -/
def callOpenAIFormat (apiName : String) (r : OpenAIResp) : Except String String :=
  if !r.ok then
    .error (apiName ++ " 錯誤 " ++ toString r.status ++ ": " ++ r.errorText.take 200)
  else if !truthy r.content then
    .error "API 返回空結果"
  else if r.finishReason = some "length" then
    .error truncatedMsg
  else
    .ok (r.content.getD "")

/-- `callGoogleGemini`, from the point where the response is available.
The code checks only `response.ok` and the presence of the text; the
`finishReason` field of the response is ignored. -/
def callGoogleGemini (r : GeminiResp) : Except String String :=
  if !r.ok then
    .error ("Google Gemini 錯誤 " ++ toString r.status ++ ": " ++ r.errorText.take 200)
  else if !truthy r.text then
    .error "Google Gemini 返回空結果"
  else
    .ok (r.text.getD "")

/-! ## `buildPrompt` (`ai-matching.js` lines 313-320) -/

/-- A word-timestamp record of the transcription result
(`{ text, start, end }`; `end` is a Lean keyword, renamed `stop`). -/
structure Word where
  text : String
  start : Int
  stop : Int
deriving Repr, DecidableEq

/-- `JSON.stringify` of one word record. -/
def stringifyWord (w : Word) : String :=
  "\x7b\x22text\x22:\x22" ++ w.text ++ "\x22,\x22start\x22:" ++ toString w.start
    ++ ",\x22end\x22:" ++ toString w.stop ++ "\x7d"

/-- `JSON.stringify(words.slice(0, 500), null, 0)` (the slice is applied
by the caller below). -/
def stringifyWords (ws : List Word) : String :=
  "[" ++ String.intercalate "," (ws.map stringifyWord) ++ "]"

/-- JS `String.prototype.replace` with a string pattern: replace the
first occurrence only.  (The `$`-pattern semantics of the replacement
string are immaterial to the theorems below, which only use that the
function factors through its arguments.) -/
def replaceFirst (s pat rep : String) : String :=
  match s.splitOn pat with
  | [] => s
  | [_] => s
  | x :: rest => x ++ rep ++ String.intercalate pat rest

/-- `buildPrompt(template, words, lyrics)`:

    const wordsJson = JSON.stringify(words.slice(0, 500), null, 0);
    return template.replace('[USER_LYRICS]', lyrics)
                   .replace('[ASSEMBLY_JSON]', wordsJson);
-/
def buildPrompt (template : String) (words : List Word) (lyrics : String) : String :=
  let wordsJson := stringifyWords (words.take 500)
  replaceFirst (replaceFirst template "[USER_LYRICS]" lyrics) "[ASSEMBLY_JSON]" wordsJson

/-! ## Pipeline input objects and the merge expressions

`runMVPipeline` (job-runner.js lines 172-184) and `runAudioPipeline`
(lines 261-270) build the pipeline input as

    data = { ...ragicData, ...inputData, ...overrides }   // with ragicCode
    data = { ...inputData, ...overrides }                 // without

JS objects with dynamic string keys are modelled as partial maps
`String → Option String`; the object-spread `{ ...a, ...b }` keeps the
value from `b` for every key present in `b` and falls back to `a`. -/

/-- A JS object with string-valued fields. -/
def Obj : Type := String → Option String

/-- Object spread `{ ...a, ...b }`. -/
def spread (a b : Obj) : Obj :=
  fun k => (b k).orElse (fun _ => a k)

/-- The three-way merge `{ ...ragicData, ...inputData, ...overrides }`. -/
def mergeInputs (ragicData inputData overrides : Obj) : Obj :=
  spread (spread ragicData inputData) overrides

/-! ## Job runner state machine (`job-runner.js`, `database.js`)

All claims about the runner concern a single job, and every database and
`activeJobs` operation performed by a run is keyed by that job's id, so
the state carries the slice of the world belonging to one job:

- `active` — this job's entry in the in-memory `activeJobs` map
  (`none` = not in the map);
- `job` — this job's row in `jobs.json` (the fields the claims mention);
- `logs` — this job's `StepLog` entries, append-only;
- `invoked` — instrumentation: the names of the steps whose `work`
  closure was actually invoked by `runStep`;
- `sched` — the cooperative-concurrency schedule: the external
  `pause()` / `cancel()` calls that settle before each successive
  `runStep` boundary (one slot consumed per `runStep` invocation;
  `none` = no external call before that boundary).  A pause or cancel
  requested while a step's `work` is in flight is observed at the next
  boundary, which is exactly how this schedule delivers it. -/

/-- The `{ paused, cancelled }` control-flag record stored in
`activeJobs`. -/
structure Flags where
  paused : Bool
  cancelled : Bool
deriving Repr, DecidableEq

/-- Job lifecycle status values of `job-runner.js` / `database.js`. -/
inductive JobStatus where
  | pending | running | completed | failed | paused | cancelled
deriving Repr, DecidableEq

/-- StepLog status values (`db.logs.add` third argument). -/
inductive LogStatus where
  | started | completed | failed
deriving Repr, DecidableEq

/-- One `StepLog` row (the fields the claims mention). -/
structure LogEntry where
  step : String
  status : LogStatus
  message : String
deriving Repr, DecidableEq

/-- This job's row in the jobs store. -/
structure JobRec where
  status : JobStatus
  currentStep : Option String
  progress : Nat
  errorMessage : Option String
deriving Repr, DecidableEq

/-- An external control call arriving at a step boundary. -/
inductive ExtCmd where
  | pause | cancel
deriving Repr, DecidableEq

/-- The per-job world state. -/
structure St where
  active : Option Flags
  job : JobRec
  logs : List LogEntry
  invoked : List String
  sched : List (Option ExtCmd)
deriving Repr, DecidableEq

/-- `JobRunner.pause(jobId)` / `JobRunner.cancel(jobId)` (lines 403-414,
433-439): `pause` sets the flag and `db.jobs.pause` (status `paused`);
`cancel` sets only the flag.  Both are no-ops when the job has no
`activeJobs` entry. -/
def applyCmd (s : St) : Option ExtCmd → St
  | none => s
  | some .pause =>
    match s.active with
    | some fl => { s with active := some { fl with paused := true },
                          job := { s.job with status := .paused } }
    | none => s
  | some .cancel =>
    match s.active with
    | some fl => { s with active := some { fl with cancelled := true } }
    | none => s

/-- Deliver the external call (if any) scheduled before the next
`runStep` boundary. -/
def consumeBoundary (s : St) : St :=
  match s.sched with
  | [] => s
  | c :: rest => applyCmd { s with sched := rest } c

/-- `db.logs.add(jobId, step, status, message)` (database.js lines
471-484): append-only. -/
def addLog (s : St) (step : String) (st : LogStatus) (msg : String) : St :=
  { s with logs := s.logs ++ [⟨step, st, msg⟩] }

/-- `db.jobs.updateStatus(id, status, step, progress)` (database.js
lines 411-419): sets exactly the three fields. -/
def updateStatus (s : St) (status : JobStatus) (step : String) (progress : Nat) : St :=
  { s with job := { s.job with status := status, currentStep := some step,
                               progress := progress } }

/-- Body of `runStep` after the control-flag check passed (lines
368-392): update status to `running`/step/progress, record the
`started` log, invoke `work` (here: an oracle outcome, recorded in
`invoked`), then record the `completed` or `failed` log. -/
def runStepBody (s : St) (stepName : String) (progress : Nat)
    (fn : Except String α) : St × Except String α :=
  let s := updateStatus s .running stepName progress
  let s := addLog s stepName .started ("開始執行: " ++ stepName)
  let s := { s with invoked := s.invoked ++ [stepName] }
  match fn with
  | .ok v => (addLog s stepName .completed ("完成: " ++ stepName), .ok v)
  | .error e => (addLog s stepName .failed e, .error e)

/-- `JobRunner.runStep(jobId, stepName, progress, fn)` (lines 358-393).
The boundary's external calls are delivered first; then
`state?.paused` / `state?.cancelled` are checked and raise the control
errors `已暫停` / `已取消` before any logging or status update;
otherwise the step body runs. -/
def runStep (s : St) (stepName : String) (progress : Nat)
    (fn : Except String α) : St × Except String α :=
  match (consumeBoundary s).active with
  | some fl =>
    if fl.paused then (consumeBoundary s, .error "已暫停")
    else if fl.cancelled then (consumeBoundary s, .error "已取消")
    else runStepBody (consumeBoundary s) stepName progress fn
  | none => runStepBody (consumeBoundary s) stepName progress fn

/-- Outcomes of the external collaborators for one run, plus the two
settings flags the pipelines read.  Result payloads are opaque tokens:
the claims under verification concern control flow, logging and status,
never the payload contents. -/
structure Services where
  /-- `services.ragic.read(ragicCode, mode)` result (an object) or
  thrown error. -/
  ragicRead : Except String Obj
  /-- `services.transcription.transcribe(...)` → `result.data` or
  thrown error. -/
  transcribeResult : Except String String
  /-- `services.aiMatching.match(...)` result or thrown error. -/
  matchResult : Except String String
  /-- `services.aiMatching.correct(...)` — internally caught, never
  throws: `(success, data)`. -/
  correctResult : Bool × String
  /-- `textProcessor.cleanTranscript` + `smartSplit` output (pure,
  total). -/
  processedText : String
  /-- `textProcessor.generateJSON(...)` output (pure, total). -/
  jsonResult : String
  /-- `services.ragic.write(...)` outcome. -/
  ragicWrite : Except String Unit
  /-- `db.settings.get('default_auto_correction') === 'true'`. -/
  autoCorrection : Bool
  /-- `db.settings.get('default_auto_upload') === 'true'`. -/
  autoUpload : Bool

/-- Validation error for a missing audio URL in `runMVPipeline`
(line 188). -/
def mvMissingAudioMsg : String := "缺少音頻 URL！請確認 Ragic 資料或手動提供。"

/-- Validation error for missing lyrics in `runMVPipeline` (line 191). -/
def mvMissingLyricsMsg : String := "缺少歌詞！請確認 Ragic 資料或手動提供。"

/-- Validation error for a missing audio URL in `runAudioPipeline`
(line 276). -/
def audioMissingAudioMsg : String := "缺少音頻 URL！"

/-- Validation error for a missing transcript in `runAudioPipeline`
(line 279). -/
def audioMissingTranscriptMsg : String := "缺少語音稿！"

/-- Step-1 input resolution shared by both pipelines: with a truthy
`ragicCode` the data is fetched and merged
(`{ ...ragicData, ...inputData, ...overrides }`), otherwise
`{ ...inputData, ...overrides }`. -/
def resolveInput (ragicCode : Option String) (svc : Services)
    (inputData overrides : Obj) : Except String Obj :=
  if truthy ragicCode then
    svc.ragicRead.map (fun rd => mergeInputs rd inputData overrides)
  else .ok (spread inputData overrides)

/-- Sequencing of awaited pipeline stages: a thrown error propagates
(aborting the rest of the pipeline), a resolved value is passed on. -/
def pstep (x : St × Except String α) (f : St → α → St × Except String β) :
    St × Except String β :=
  match x with
  | (s, .error e) => (s, .error e)
  | (s, .ok v) => f s v

/-- `runMVPipeline(jobId, ragicCode, inputData, overrides)`
(lines 172-254). -/
def runMVPipeline (s : St) (ragicCode : Option String)
    (inputData overrides : Obj) (svc : Services) : St × Except String String :=
  pstep
    (if truthy ragicCode then
      runStep s "讀取 Ragic" 5
        (svc.ragicRead.map (fun rd => mergeInputs rd inputData overrides))
    else (s, .ok (spread inputData overrides)))
    (fun s data =>
      if !truthy (data "audioUrl") then (s, .error mvMissingAudioMsg)
      else if !truthy (data "lyrics") then (s, .error mvMissingLyricsMsg)
      else
        pstep (runStep s "語音識別" 40 svc.transcribeResult) (fun s _transcription =>
          pstep (runStep s "AI 匹配" 70 svc.matchResult) (fun s matchData =>
            pstep
              (if svc.autoCorrection then
                pstep (runStep s "AI 校正" 85 (.ok svc.correctResult))
                  (fun s cr => (s, .ok (if cr.1 then cr.2 else matchData)))
              else (s, .ok matchData))
              (fun s _lyricsData =>
                pstep (runStep s "生成 JSON" 95 (.ok svc.jsonResult)) (fun s json =>
                  if truthy ragicCode && svc.autoUpload then
                    pstep (runStep s "上傳 Ragic" 100 svc.ragicWrite)
                      (fun s _ => (s, .ok json))
                  else (s, .ok json))))))

/-- `runAudioPipeline(jobId, ragicCode, inputData, overrides)`
(lines 261-347). -/
def runAudioPipeline (s : St) (ragicCode : Option String)
    (inputData overrides : Obj) (svc : Services) : St × Except String String :=
  pstep
    (if truthy ragicCode then
      runStep s "讀取 Ragic" 5
        (svc.ragicRead.map (fun rd => mergeInputs rd inputData overrides))
    else (s, .ok (spread inputData overrides)))
    (fun s data =>
      if !truthy (data "audioUrl") && !truthy (data "finalAudioUrl") then
        (s, .error audioMissingAudioMsg)
      else if !truthy (data "transcript") then (s, .error audioMissingTranscriptMsg)
      else
        pstep (runStep s "智能分行" 15 (.ok svc.processedText)) (fun s _processed =>
          pstep (runStep s "語音識別" 50 svc.transcribeResult) (fun s _transcription =>
            pstep (runStep s "AI 匹配" 80 svc.matchResult) (fun s matchData =>
              pstep
                (if svc.autoCorrection then
                  pstep (runStep s "AI 校正" 90 (.ok svc.correctResult))
                    (fun s cr => (s, .ok (if cr.1 then cr.2 else matchData)))
                else (s, .ok matchData))
                (fun s _lyricsData =>
                  pstep (runStep s "生成 JSON" 95 (.ok svc.jsonResult)) (fun s json =>
                    if truthy ragicCode && svc.autoUpload then
                      pstep (runStep s "上傳 Ragic" 100 svc.ragicWrite)
                        (fun s _ => (s, .ok json))
                    else (s, .ok json)))))))

/-- `JobRunner.runJob(jobId, type, ragicCode, inputData, overrides)`
(lines 101-165): create the `activeJobs` entry with both flags false,
`db.jobs.start` (status `running`), run the pipeline for the job type,
then the completion/catch logic:

- success: `db.jobs.complete` (status `completed`, progress 100) and
  `activeJobs.delete`;
- error with `state?.paused`: return, leaving both the job row and the
  `activeJobs` entry as they are;
- error with `state?.cancelled`: `db.jobs.cancel` (status `cancelled`)
  and `activeJobs.delete`;
- any other error: `db.jobs.fail` (status `failed`, error message) and
  `activeJobs.delete`.

Notifications are fire-and-forget with internally caught errors
(`notification.js`), so they affect none of the modelled state. -/
def runJob (s0 : St) (type : String) (ragicCode : Option String)
    (inputData overrides : Obj) (svc : Services) : St :=
  match (if type = "mv" then
      runMVPipeline
        { s0 with
          active := some ⟨false, false⟩,
          job := { s0.job with status := .running } }
        ragicCode inputData overrides svc
    else
      runAudioPipeline
        { s0 with
          active := some ⟨false, false⟩,
          job := { s0.job with status := .running } }
        ragicCode inputData overrides svc) with
  | (s, .ok _json) =>
    { s with job := { s.job with status := .completed, progress := 100 },
             active := none }
  | (s, .error e) =>
    match s.active with
    | some fl =>
      if fl.paused then s
      else if fl.cancelled then
        { s with job := { s.job with status := .cancelled }, active := none }
      else
        { s with job := { s.job with status := .failed, errorMessage := some e },
                 active := none }
    | none =>
      { s with job := { s.job with status := .failed, errorMessage := some e },
               active := none }

/-! ## `smartSplit` (text-processor service, lines 144-258)

The character-level splitter is embedded over `List Char` (a JS string
is its list of UTF-16 units; all characters involved in the rules are
single units). -/

/-- The characters removed by `getLength`'s `cleaned` regex
`[，。、；：！？,.;:!?"'"「」『』（）()【】《》〈〉]`. -/
def cleanPunctList : List Char :=
  ['，', '。', '、', '；', '：', '！', '？', ',', '.', ';', ':', '!', '?',
   '"', '\'', '「', '」', '『', '』', '（', '）', '(', ')', '【', '】',
   '《', '》', '〈', '〉']

def isCleanPunct (c : Char) : Bool := cleanPunctList.contains c

/-- CJK range of the regex `[一-龥]`. -/
def isCJK (c : Char) : Bool := 0x4e00 ≤ c.toNat && c.toNat ≤ 0x9fa5

/-- `[a-zA-Z]`, by code point (`a`..`z` is 97..122, `A`..`Z` is 65..90). -/
def isEngLetter (c : Char) : Bool :=
  (97 ≤ c.toNat && c.toNat ≤ 122) || (65 ≤ c.toNat && c.toNat ≤ 90)

/-- `str.replace(/[punct]/g, '')` of `getLength`. -/
def cleanedStr (l : List Char) : List Char := l.filter (fun c => !isCleanPunct c)

/-- Number of maximal `[a-zA-Z]+` runs, tracked with a "previous
character was a letter" flag. -/
def runsCount : Bool → List Char → Nat
  | _, [] => 0
  | prev, c :: rest =>
    (if isEngLetter c && !prev then 1 else 0) + runsCount (isEngLetter c) rest

/-- `getLength(str)`: CJK characters count 1 each, each English word
(maximal letter run) counts 1, punctuation is stripped first. -/
def getLength (l : List Char) : Nat :=
  ((cleanedStr l).filter isCJK).length + runsCount false (cleanedStr l)

/-- Whitespace for the purposes of `trim`. -/
def isWS (c : Char) : Bool := c = ' ' || c = '\n' || c = '\t' || c = '\r'

/-- `str.trimStart()`-like. -/
def trimL (l : List Char) : List Char := l.dropWhile isWS

/-- `str.trimEnd()`-like. -/
def trimR (l : List Char) : List Char := (l.reverse.dropWhile isWS).reverse

/-- `str.trim()`. -/
def trimChars (l : List Char) : List Char := trimR (trimL l)

/-- The characters of the trailing-punctuation regex
`[。！？，、；,.;:!?"']+$` in `removePunctuation`. -/
def trailPunctList : List Char :=
  ['。', '！', '？', '，', '、', '；', ',', '.', ';', ':', '!', '?', '"', '\'']

def isTrailPunct (c : Char) : Bool := trailPunctList.contains c

/-- `str.replace(/[trail]+$/g, '')`: drop the maximal trailing run of
trailing-punctuation characters. -/
def dropTrailPunct (l : List Char) : List Char :=
  (l.reverse.dropWhile isTrailPunct).reverse

/-- `removePunctuation(str)`: when `removeTrailing` is configured, strip
the trailing punctuation run, then `trim()`; otherwise just `trim()`. -/
def removePunct (removeTrailing : Bool) (l : List Char) : List Char :=
  if removeTrailing then trimChars (dropTrailPunct l) else trimChars l

/-- Decompose a string into its maximal runs of characters agreeing on
the predicate `p` — the effect of `split(/([chars]+)/)` followed by
dropping empty/whitespace-only segments is obtained by filtering the
runs afterwards. -/
def splitRuns (p : Char → Bool) : List Char → List (List Char)
  | [] => []
  | c :: rest =>
    match splitRuns p rest with
    | [] => [[c]]
    | g :: gs =>
      match g with
      | [] => [[c]]
      | d :: _ => if p c = p d then (c :: g) :: gs else [c] :: g :: gs

/-- Big sentence punctuation `[。！？]`. -/
def isBigPunct (c : Char) : Bool := c = '。' || c = '！' || c = '？'

/-- Small punctuation `[，、；]`. -/
def isSmallPunct (c : Char) : Bool := c = '，' || c = '、' || c = '；'

/-- Merge the `[。！？]+` runs back onto the preceding sentence
(lines 180-189: punctuation-only segments are appended to the last
collected sentence, or dropped when there is none). -/
def mergeBigPunct (segs : List (List Char)) : List (List Char) :=
  segs.foldl
    (fun acc seg =>
      if seg ≠ [] && seg.all isBigPunct then
        match acc.getLast? with
        | some lastSeg => acc.dropLast ++ [lastSeg ++ seg]
        | none => acc
      else acc ++ [seg])
    []

/-- The split configuration the splitter reads (`getSplitConfig`):
`maxChars` and the remove-trailing-punctuation flag.  (`minChars` and
the punctuation setting are read but unused by `smartSplit`.) -/
structure SplitCfg where
  maxChars : Nat
  removeTrailing : Bool
deriving Repr, DecidableEq

/-- The character-by-character forced split of an over-long part
(lines 228-243).  Returns the updated pushed lines and the final
`tempLine`. -/
def forceSplit (cfg : SplitCfg) :
    List Char → List Char → List (List Char) → List (List Char) × List Char
  | [], tempLine, acc => (acc, tempLine)
  | c :: rest, tempLine, acc =>
    if getLength (tempLine ++ [c]) ≤ cfg.maxChars then
      forceSplit cfg rest (tempLine ++ [c]) acc
    else if tempLine ≠ [] then
      forceSplit cfg rest [c] (acc ++ [removePunct cfg.removeTrailing tempLine])
    else
      forceSplit cfg rest [c] acc

/-- The small-punctuation accumulation loop over `parts`
(lines 206-246).  Returns the pushed lines and the final
`currentLine`. -/
def procParts (cfg : SplitCfg) :
    List (List Char) → List Char → List (List Char) → List (List Char) × List Char
  | [], currentLine, acc => (acc, currentLine)
  | part :: rest, currentLine, acc =>
    if part ≠ [] && part.all isSmallPunct then
      procParts cfg rest (currentLine ++ part) acc
    else if getLength (currentLine ++ part) ≤ cfg.maxChars then
      procParts cfg rest (currentLine ++ part) acc
    else if getLength part > cfg.maxChars then
      procParts cfg rest
        (forceSplit cfg part []
          (if currentLine ≠ [] then
            acc ++ [removePunct cfg.removeTrailing currentLine] else acc)).2
        (forceSplit cfg part []
          (if currentLine ≠ [] then
            acc ++ [removePunct cfg.removeTrailing currentLine] else acc)).1
    else
      procParts cfg rest part
        (if currentLine ≠ [] then
          acc ++ [removePunct cfg.removeTrailing currentLine] else acc)

/-- Process one full sentence (lines 192-252): short sentences are
pushed directly, long ones go through the small-punctuation split with
the trailing `if (currentLine) result.push(...)`. -/
def procSentence (cfg : SplitCfg) (acc : List (List Char)) (sentence : List Char) :
    List (List Char) :=
  if trimChars sentence = [] then acc
  else if getLength (trimChars sentence) ≤ cfg.maxChars then
    acc ++ [removePunct cfg.removeTrailing (trimChars sentence)]
  else if (procParts cfg
      ((splitRuns isSmallPunct (trimChars sentence)).filter
        (fun p => trimChars p ≠ [])) [] acc).2 ≠ [] then
    (procParts cfg
      ((splitRuns isSmallPunct (trimChars sentence)).filter
        (fun p => trimChars p ≠ [])) [] acc).1
      ++ [removePunct cfg.removeTrailing
          (procParts cfg
            ((splitRuns isSmallPunct (trimChars sentence)).filter
              (fun p => trimChars p ≠ [])) [] acc).2]
  else
    (procParts cfg
      ((splitRuns isSmallPunct (trimChars sentence)).filter
        (fun p => trimChars p ≠ [])) [] acc).1

/-- `\r\n` → `\n` (first newline normalisation pass). -/
def replCRLF : List Char → List Char
  | [] => []
  | '\r' :: '\n' :: rest => '\n' :: replCRLF rest
  | c :: rest => c :: replCRLF rest

/-- Remaining `\r` → `\n`. -/
def replCR (l : List Char) : List Char :=
  l.map (fun c => if c = '\r' then '\n' else c)

/-- `\n{3,}` → `\n\n`. -/
def squeezeNewlines (l : List Char) : List Char :=
  ((splitRuns (fun c => c = '\n') l).map
    (fun run => if run.head? = some '\n' && run.length ≥ 3 then ['\n', '\n'] else run)).flatten

/-- Split into paragraphs on `/\n\n+/` (a run of two or more newlines
separates; a single newline stays inside the paragraph). -/
def splitParas (l : List Char) : List (List Char) :=
  let r := (splitRuns (fun c => c = '\n') l).foldl
    (fun (st : List (List Char) × List Char) seg =>
      if seg.head? = some '\n' && seg.length ≥ 2 then (st.1 ++ [st.2], [])
      else (st.1, st.2 ++ seg))
    ([], [])
  (r.1 ++ [r.2]).filter (fun p => trimChars p ≠ [])

/-- `smartSplit(text, mode)` as the list of produced lines
(the source returns `result.join('\n')`; see `smartSplitJoined`). -/
def smartSplit (cfg : SplitCfg) (text : List Char) : List (List Char) :=
  let text := squeezeNewlines (replCR (replCRLF (trimChars text)))
  let paragraphs := splitParas text
  paragraphs.foldl
    (fun acc para =>
      let cleanedPara := trimChars (para.filter (fun c => c ≠ '\n'))
      let bigs := (splitRuns isBigPunct cleanedPara).filter (fun s => trimChars s ≠ [])
      let fulls := mergeBigPunct bigs
      fulls.foldl (procSentence cfg) acc)
    []

/-- `result.join('\n')` — the string actually returned by the source. -/
def smartSplitJoined (cfg : SplitCfg) (text : List Char) : List Char :=
  List.intercalate ['\n'] (smartSplit cfg text)

/-- Whether a string ends in a letter (`prev` is the value for the
empty string) — the state `runsCount` is in after consuming it. -/
def endsLetter (prev : Bool) : List Char → Bool
  | [] => prev
  | c :: rest => endsLetter (isEngLetter c) rest

/-- Control-flag/status invariant: whenever the job's `activeJobs` entry
has the pause flag raised, the stored job status is `paused` (the flag
is only ever raised by `pause()`, which also writes the status, and no
status write happens between the flag being observed and the run
exiting). -/
def Inv (s : St) : Prop :=
  ∀ fl, s.active = some fl → fl.paused = true → s.job.status = .paused

/-! ### Concrete fixtures used by witnesses and counterexamples -/

/-- An empty object (no fields present). -/
def emptyObj : Obj := fun _ => none

/-- A direct MV input carrying the two required fields. -/
def mvInputSample : Obj := fun k =>
  if k = "audioUrl" then some "https://example.com/a.mp3"
  else if k = "lyrics" then some "一句歌詞" else none

/-- Service oracles where every external call succeeds. -/
def svcAllOk : Services :=
  { ragicRead := .ok emptyObj
    transcribeResult := .ok "transcription"
    matchResult := .ok "matched"
    correctResult := (true, "corrected")
    processedText := "lines"
    jsonResult := "json"
    ragicWrite := .ok ()
    autoCorrection := true
    autoUpload := true }

/-- A freshly created job record with a given boundary schedule. -/
def freshSt (sched : List (Option ExtCmd)) : St :=
  { active := none
    job := { status := .pending, currentStep := none, progress := 0,
             errorMessage := none }
    logs := []
    invoked := []
    sched := sched }

/-- A state whose `activeJobs` entry has the pause flag raised. -/
def pausedSt : St := { freshSt [] with active := some ⟨true, false⟩ }

/-- A direct voice-note input carrying the two required fields. -/
def audioInputSample : Obj := fun k =>
  if k = "audioUrl" then some "https://example.com/v.mp3"
  else if k = "transcript" then some "一段語音稿" else none

/-- A direct input with lyrics and transcript but no audio URL. -/
def mvInputNoAudio : Obj := fun k =>
  if k = "lyrics" then some "一句歌詞"
  else if k = "transcript" then some "一段語音稿" else none

/-! # Theorems -/

/-! ## C9 — prompt truncation to 500 words -/

/-- C9: For every word-timestamp list passed to AI matching, the prompt
built by `buildPrompt` depends on the word list only through its first
500 elements (`words.slice(0, 500)`), so words beyond that prefix never
appear in the prompt regardless of input length. -/
theorem c9_buildPrompt_first500 (template : String) (words : List Word)
    (lyrics : String) :
    buildPrompt template words lyrics = buildPrompt template (words.take 500) lyrics := by
  simp [buildPrompt, List.take_take]

/-! ## C6 — per-field merge precedence -/

/-- C6: For every field name `k`, the merged input
`{ ...ragicData, ...inputData, ...overrides }` used by both pipelines
takes `k`'s value from `overrides` when present there, otherwise from
`inputData`, otherwise from `ragicData`; and the no-Ragic merge
`{ ...inputData, ...overrides }` behaves the same with an absent Ragic
layer. -/
theorem c6_merge_precedence (ragicData inputData overrides : Obj) (k : String) :
    (mergeInputs ragicData inputData overrides k =
      match overrides k with
      | some v => some v
      | none =>
        match inputData k with
        | some v => some v
        | none => ragicData k) ∧
    (spread inputData overrides k =
      match overrides k with
      | some v => some v
      | none => inputData k) := by
  constructor
  · simp only [mergeInputs, spread]
    cases overrides k <;> cases inputData k <;> simp [Option.orElse]
  · simp only [spread]
    cases overrides k <;> simp [Option.orElse]

/-! ## C7 — truncated-output detection -/

/-- C7 counterexample: a Google Gemini response that signals a
length-limited finish (`finishReason = "MAX_TOKENS"`) with truncated
text is returned as a *success* by `callGoogleGemini` — the attempt does
not fail with any error, let alone a distinct truncation error, because
the code never reads the finish reason on the Gemini path. -/
theorem c7_counterexample :
    callGoogleGemini
      ⟨true, 200, "", some "const lyricsData=[", some "MAX_TOKENS"⟩
      = .ok "const lyricsData=[" := by
  rfl

/-- C7 (amended): only the OpenAI-format provider path detects a
length-limited finish: `callOpenAIFormat` fails with the distinct
truncation error `輸出被截斷（超過 token 限制）` whenever the response is
OK, has content, and reports `finish_reason === 'length'`; the Google
Gemini path returns whatever text is present regardless of the
response's finish reason. -/
theorem c7_amended_truncation (apiName : String) (r : OpenAIResp)
    (hok : r.ok = true) (hc : truthy r.content = true)
    (hf : r.finishReason = some "length") :
    callOpenAIFormat apiName r = .error truncatedMsg ∧
    ∀ g : GeminiResp, g.ok = true → truthy g.text = true →
      callGoogleGemini g = .ok (g.text.getD "") := by
  constructor
  · simp [callOpenAIFormat, hok, hc, hf]
  · intro g hgok hgt
    simp [callGoogleGemini, hgok, hgt]

/-- Witness for `c7_amended_truncation` at a concrete truncated
OpenAI-format response. -/
theorem c7_amended_truncation_witness :
    (true = true ∧ truthy (some "const lyricsData=[") = true) ∧
    callOpenAIFormat "147 Gemini"
      ⟨true, 200, "", some "const lyricsData=[", some "length"⟩
      = .error truncatedMsg :=
  ⟨⟨rfl, by decide⟩,
    (c7_amended_truncation "147 Gemini"
      ⟨true, 200, "", some "const lyricsData=[", some "length"⟩
      rfl (by decide) rfl).1⟩

/-! ## C8 — empty provider list -/

/-- Unfolding equation: unknown provider ids are skipped. -/
theorem failoverGo_cons_none {apis : String → Option ApiCfg} {maxAttempts : Nat}
    {outcome : String → Nat → Except String String} {apiId : String}
    {rest : List String} {tot : Nat} {last : Option String}
    (h : apis apiId = none) :
    failoverGo apis maxAttempts outcome (apiId :: rest) tot last
      = failoverGo apis maxAttempts outcome rest tot last := by
  simp [failoverGo, h]

/-- Unfolding equation: keyless providers are skipped. -/
theorem failoverGo_cons_nokey {apis : String → Option ApiCfg} {maxAttempts : Nat}
    {outcome : String → Nat → Except String String} {apiId : String}
    {rest : List String} {tot : Nat} {last : Option String} {cfg : ApiCfg}
    (h : apis apiId = some cfg) (hk : cfg.hasKey = false) :
    failoverGo apis maxAttempts outcome (apiId :: rest) tot last
      = failoverGo apis maxAttempts outcome rest tot last := by
  simp [failoverGo, h, hk]

/-- Unfolding equation: a usable provider whose retry loop succeeds
ends the failover with its attempts as the whole remaining trace. -/
theorem failoverGo_cons_ok {apis : String → Option ApiCfg} {maxAttempts : Nat}
    {outcome : String → Nat → Except String String} {apiId : String}
    {rest : List String} {tot : Nat} {last : Option String} {cfg : ApiCfg}
    {v : String}
    (h : apis apiId = some cfg) (hk : cfg.hasKey = true)
    (h2 : (tryProv (outcome apiId) 1 maxAttempts).2 = .ok v) :
    failoverGo apis maxAttempts outcome (apiId :: rest) tot last
      = ((tryProv (outcome apiId) 1 maxAttempts).1.map (fun n => (apiId, n)),
          .ok v) := by
  simp [failoverGo, h, hk, h2]

/-- Unfolding equation: a usable provider whose retry loop fails is
followed by the rest of the order with updated totals. -/
theorem failoverGo_cons_err {apis : String → Option ApiCfg} {maxAttempts : Nat}
    {outcome : String → Nat → Except String String} {apiId : String}
    {rest : List String} {tot : Nat} {last : Option String} {cfg : ApiCfg}
    {n : Nat} {le : Option String}
    (h : apis apiId = some cfg) (hk : cfg.hasKey = true)
    (h2 : (tryProv (outcome apiId) 1 maxAttempts).2 = .error (n, le)) :
    failoverGo apis maxAttempts outcome (apiId :: rest) tot last
      = ((tryProv (outcome apiId) 1 maxAttempts).1.map (fun m => (apiId, m))
          ++ (failoverGo apis maxAttempts outcome rest (tot + n) (le.or last)).1,
         (failoverGo apis maxAttempts outcome rest (tot + n) (le.or last)).2) := by
  simp only [failoverGo, h, hk, if_true, h2]

/-- Helper: when every provider in the order is unknown or lacks a key,
the loop performs no attempt and falls through to the aggregate error
with the threaded totals. -/
theorem failoverGo_all_unusable (apis : String → Option ApiCfg)
    (maxAttempts : Nat) (outcome : String → Nat → Except String String) :
    ∀ (l : List String) (tot : Nat) (last : Option String),
      (∀ i ∈ l, ∀ cfg, apis i = some cfg → cfg.hasKey = false) →
      failoverGo apis maxAttempts outcome l tot last = ([], .error (tot, last)) := by
  intro l
  induction l with
  | nil => intro tot last _; rfl
  | cons apiId rest ih =>
    intro tot last h
    simp only [failoverGo]
    cases hc : apis apiId with
    | none => exact ih tot last (fun i hi => h i (List.mem_cons_of_mem _ hi))
    | some cfg =>
      have hk : cfg.hasKey = false := h apiId (List.mem_cons_self _ _) cfg hc
      simp only [hk, Bool.false_eq_true, if_false]
      exact ih tot last (fun i hi => h i (List.mem_cons_of_mem _ hi))

/-- C8 counterexample: with an empty effective provider list (here: no
provider configured at all) `transcribe` throws the aggregate
all-providers-failed error reporting 0 attempts and an unknown last
error — not an error reading "no providers configured". -/
theorem c8_counterexample :
    (transcribeRun (fun _ => none) [] 3 none (fun _ _ => .error "網路錯誤")).2
      = .error "所有語音識別 API 均失敗（共 0 次嘗試）。最後錯誤: 未知" ∧
    "所有語音識別 API 均失敗（共 0 次嘗試）。最後錯誤: 未知" ≠ "no providers configured" := by
  constructor
  · rfl
  · decide

/-- C8 (amended): when the effective provider list is empty or contains
only unusable providers (unknown id or missing `apiKey`), both failover
executors fail with their aggregate all-providers-failed error carrying
0 attempts and last error `未知` — there is no distinct
"no providers configured" error in the code. -/
theorem c8_amended_empty_providers (apis : String → Option ApiCfg)
    (apiOrder : List String) (maxAttempts : Nat) (preferred : Option String)
    (outcome : String → Nat → Except String String)
    (h : ∀ i ∈ effectiveOrder apis preferred apiOrder, ∀ cfg,
      apis i = some cfg → cfg.hasKey = false) :
    (transcribeRun apis apiOrder maxAttempts preferred outcome).2
      = .error (transcribeAggregateMsg 0 none) ∧
    (matchRun apis apiOrder maxAttempts preferred outcome).2
      = .error (matchAggregateMsg 0 none) := by
  have hgo := failoverGo_all_unusable apis maxAttempts outcome
    (effectiveOrder apis preferred apiOrder) 0 none h
  constructor
  · simp [transcribeRun, runFailover, hgo, Except.mapError]
  · simp [matchRun, runFailover, hgo, Except.mapError]

/-- Witness for `c8_amended_empty_providers` with three configured but
keyless transcription providers (the default configuration: all
`api_*_key` settings are empty strings). -/
theorem c8_amended_empty_providers_witness :
    (∀ i ∈ effectiveOrder
        (fun i => if i = "whisper147" then some ⟨"whisper147", false⟩
          else if i = "whisperN1N" then some ⟨"whisperN1N", false⟩
          else if i = "assemblyai" then some ⟨"assemblyai", false⟩ else none)
        none ["whisper147", "whisperN1N", "assemblyai"], ∀ cfg,
      (fun i => if i = "whisper147" then some (⟨"whisper147", false⟩ : ApiCfg)
          else if i = "whisperN1N" then some ⟨"whisperN1N", false⟩
          else if i = "assemblyai" then some ⟨"assemblyai", false⟩ else none) i
        = some cfg → cfg.hasKey = false) ∧
    (transcribeRun
        (fun i => if i = "whisper147" then some ⟨"whisper147", false⟩
          else if i = "whisperN1N" then some ⟨"whisperN1N", false⟩
          else if i = "assemblyai" then some ⟨"assemblyai", false⟩ else none)
        ["whisper147", "whisperN1N", "assemblyai"] 3 none
        (fun _ _ => .error "網路錯誤")).2
      = .error (transcribeAggregateMsg 0 none) :=
  ⟨by decide,
    (c8_amended_empty_providers _ _ 3 none _ (by decide)).1⟩

/-! ## C2 — failover executor discipline -/

/-- The inner retry loop performs at most `fuel` attempts. -/
theorem tryProv_length (o : Nat → Except String String) :
    ∀ start fuel, (tryProv o start fuel).1.length ≤ fuel := by
  intro start fuel
  induction fuel generalizing start with
  | zero => simp [tryProv]
  | succ f ih =>
    simp only [tryProv]
    cases h : o start with
    | ok v => simp
    | error e =>
      simpa using Nat.succ_le_succ (ih (start + 1))

/-- If the inner retry loop fails, every attempt it made failed. -/
theorem tryProv_error_all_fail (o : Nat → Except String String) :
    ∀ start fuel p, (tryProv o start fuel).2 = .error p →
      ∀ n ∈ (tryProv o start fuel).1, ∃ e, o n = .error e := by
  intro start fuel
  induction fuel generalizing start with
  | zero => intro p _ n hn; simp [tryProv] at hn
  | succ f ih =>
    intro p hp n hn
    simp only [tryProv] at hp hn
    cases h : o start with
    | ok v => rw [h] at hp; simp at hp
    | error e =>
      rw [h] at hp hn
      simp only [List.mem_cons] at hn
      rcases hn with rfl | hn
      · exact ⟨e, h⟩
      · cases h2 : (tryProv o (start + 1) f).2 with
        | ok v => rw [h2] at hp; simp at hp
        | error q => exact ih (start + 1) q h2 n hn

/-- If the inner retry loop succeeds, the trace is nonempty, its last
attempt is the succeeding one, and every earlier attempt failed. -/
theorem tryProv_ok_first_success (o : Nat → Except String String) :
    ∀ start fuel v, (tryProv o start fuel).2 = .ok v →
      (tryProv o start fuel).1 ≠ [] ∧
      (∃ n, (tryProv o start fuel).1.getLast? = some n ∧ o n = .ok v) ∧
      ∀ n ∈ (tryProv o start fuel).1.dropLast, ∃ e, o n = .error e := by
  intro start fuel
  induction fuel generalizing start with
  | zero => intro v hv; simp [tryProv] at hv
  | succ f ih =>
    intro v hv
    simp only [tryProv] at hv ⊢
    cases h : o start with
    | ok w =>
      rw [h] at hv
      simp only [Except.ok.injEq] at hv
      subst hv
      exact ⟨by simp, ⟨start, by simp, h⟩, by simp⟩
    | error e =>
      rw [h] at hv
      cases h2 : (tryProv o (start + 1) f).2 with
      | ok w =>
        rw [h2] at hv
        simp only [Except.ok.injEq] at hv
        subst hv
        obtain ⟨hne, ⟨n, hlast, hok⟩, hfail⟩ := ih (start + 1) w h2
        refine ⟨by simp, ⟨n, ?_, hok⟩, ?_⟩
        · rw [List.getLast?_cons, hlast]
          simp [hne]
        · intro m hm
          rw [List.dropLast_cons_of_ne_nil hne] at hm
          simp only [List.mem_cons] at hm
          rcases hm with rfl | hm
          · exact ⟨e, h⟩
          · exact hfail m hm
      | error q => rw [h2] at hv; simp at hv

/-- Every attempt in the failover trace belongs to a provider from the
order list that is configured and has a key. -/
theorem failoverGo_mem (apis : String → Option ApiCfg) (maxAttempts : Nat)
    (outcome : String → Nat → Except String String) :
    ∀ (l : List String) (tot : Nat) (last : Option String),
      ∀ e ∈ (failoverGo apis maxAttempts outcome l tot last).1,
        e.1 ∈ l ∧ ∃ cfg, apis e.1 = some cfg ∧ cfg.hasKey = true := by
  intro l
  induction l with
  | nil => intro tot last e he; simp [failoverGo] at he
  | cons apiId rest ih =>
    intro tot last e he
    simp only [failoverGo] at he
    cases hc : apis apiId with
    | none =>
      rw [hc] at he
      obtain ⟨h1, h2⟩ := ih tot last e he
      exact ⟨List.mem_cons_of_mem _ h1, h2⟩
    | some cfg =>
      rw [hc] at he
      by_cases hk : cfg.hasKey = true
      · simp only [hk, if_true] at he
        cases h2 : (tryProv (outcome apiId) 1 maxAttempts).2 with
        | ok v =>
          rw [h2] at he
          simp only [List.mem_map] at he
          obtain ⟨n, _, rfl⟩ := he
          exact ⟨List.mem_cons_self _ _, cfg, hc, hk⟩
        | error p =>
          rw [h2] at he
          simp only [List.mem_append, List.mem_map] at he
          rcases he with ⟨n, _, rfl⟩ | he
          · exact ⟨List.mem_cons_self _ _, cfg, hc, hk⟩
          · obtain ⟨h1, h3⟩ := ih (tot + p.1) (p.2.or last) e (by simpa using he)
            exact ⟨List.mem_cons_of_mem _ h1, h3⟩
      · simp only [Bool.not_eq_true] at hk
        simp only [hk, Bool.false_eq_true, if_false] at he
        obtain ⟨h1, h2⟩ := ih tot last e he
        exact ⟨List.mem_cons_of_mem _ h1, h2⟩

/-- With a duplicate-free order, each provider is attempted at most
`maxAttempts` times. -/
theorem failoverGo_count (apis : String → Option ApiCfg) (maxAttempts : Nat)
    (outcome : String → Nat → Except String String) :
    ∀ (l : List String) (tot : Nat) (last : Option String), l.Nodup →
      ∀ p, ((failoverGo apis maxAttempts outcome l tot last).1.filter
        (fun e => e.1 = p)).length ≤ maxAttempts := by
  intro l
  induction l with
  | nil => intro tot last _ p; simp [failoverGo]
  | cons apiId rest ih =>
    intro tot last hnd p
    have hndr : rest.Nodup := hnd.of_cons
    have hnotmem : apiId ∉ rest := (List.nodup_cons.mp hnd).1
    simp only [failoverGo]
    cases hc : apis apiId with
    | none => exact ih tot last hndr p
    | some cfg =>
      by_cases hk : cfg.hasKey = true
      · simp only [hk, if_true]
        cases h2 : (tryProv (outcome apiId) 1 maxAttempts).2 with
        | ok v =>
          simp only
          by_cases hp : apiId = p
          · subst hp
            calc (((tryProv (outcome apiId) 1 maxAttempts).1.map
                  (fun n => (apiId, n))).filter (fun e => e.1 = apiId)).length
                ≤ ((tryProv (outcome apiId) 1 maxAttempts).1.map
                  (fun n => (apiId, n))).length := List.length_filter_le _ _
              _ = (tryProv (outcome apiId) 1 maxAttempts).1.length :=
                  List.length_map _ _
              _ ≤ maxAttempts := tryProv_length _ _ _
          · have : (((tryProv (outcome apiId) 1 maxAttempts).1.map
                (fun n => (apiId, n))).filter (fun e => e.1 = p)) = [] := by
              rw [List.filter_eq_nil_iff]
              intro e he
              simp only [List.mem_map] at he
              obtain ⟨n, _, rfl⟩ := he
              simp [hp]
            simp [this]
        | error q =>
          simp only
          rw [List.filter_append, List.length_append]
          by_cases hp : apiId = p
          · subst hp
            have hz : ((failoverGo apis maxAttempts outcome rest (tot + q.1)
                (q.2.or last)).1.filter
                (fun e => e.1 = apiId)).length = 0 := by
              rw [List.length_eq_zero, List.filter_eq_nil_iff]
              intro e he
              have := (failoverGo_mem apis maxAttempts outcome rest _ _ e he).1
              simp only [decide_eq_true_eq]
              intro hcontra
              exact hnotmem (hcontra ▸ this)
            rw [hz, Nat.add_zero]
            calc (((tryProv (outcome apiId) 1 maxAttempts).1.map
                  (fun n => (apiId, n))).filter (fun e => e.1 = apiId)).length
                ≤ ((tryProv (outcome apiId) 1 maxAttempts).1.map
                  (fun n => (apiId, n))).length := List.length_filter_le _ _
              _ = (tryProv (outcome apiId) 1 maxAttempts).1.length :=
                  List.length_map _ _
              _ ≤ maxAttempts := tryProv_length _ _ _
          · have hz : (((tryProv (outcome apiId) 1 maxAttempts).1.map
                (fun n => (apiId, n))).filter (fun e => e.1 = p)).length = 0 := by
              rw [List.length_eq_zero, List.filter_eq_nil_iff]
              intro e he
              simp only [List.mem_map] at he
              obtain ⟨n, _, rfl⟩ := he
              simp [hp]
            rw [hz, Nat.zero_add]
            exact ih (tot + q.1) _ hndr p
      · simp only [Bool.not_eq_true] at hk
        simp only [hk, Bool.false_eq_true, if_false]
        exact ih tot last hndr p

/-- A relation that holds between all pairs is pairwise on any list. -/
theorem pairwiseOfForall {α : Type} {R : α → α → Prop} (h : ∀ a b, R a b) :
    ∀ xs : List α, xs.Pairwise R := by
  intro xs
  induction xs with
  | nil => exact List.Pairwise.nil
  | cons x rest ih => exact List.Pairwise.cons (fun b _ => h x b) ih

/-- With a duplicate-free order, attempts in the trace occur in
non-decreasing provider order: any later attempt belongs to the same
provider or to one strictly later in the fallback order. -/
theorem failoverGo_ordered (apis : String → Option ApiCfg) (maxAttempts : Nat)
    (outcome : String → Nat → Except String String) :
    ∀ (l : List String) (tot : Nat) (last : Option String), l.Nodup →
      List.Pairwise
        (fun (a b : String × Nat) => a.1 = b.1 ∨ l.indexOf a.1 < l.indexOf b.1)
        (failoverGo apis maxAttempts outcome l tot last).1 := by
  intro l
  induction l with
  | nil => intro tot last _; simp [failoverGo]
  | cons apiId rest ih =>
    intro tot last hnd
    have hndr : rest.Nodup := hnd.of_cons
    have hnotmem : apiId ∉ rest := (List.nodup_cons.mp hnd).1
    have hlift : ∀ (tot' : Nat) (last' : Option String),
        List.Pairwise
          (fun (a b : String × Nat) =>
            a.1 = b.1 ∨ (apiId :: rest).indexOf a.1 < (apiId :: rest).indexOf b.1)
          (failoverGo apis maxAttempts outcome rest tot' last').1 := by
      intro tot' last'
      refine (ih tot' last' hndr).imp_of_mem ?_
      intro a b ha hb hab
      rcases hab with h1 | h1
      · exact Or.inl h1
      · have hma := (failoverGo_mem apis maxAttempts outcome rest tot' last' a ha).1
        have hmb := (failoverGo_mem apis maxAttempts outcome rest tot' last' b hb).1
        have hna : a.1 ≠ apiId := fun hcontra => hnotmem (hcontra ▸ hma)
        have hnb : b.1 ≠ apiId := fun hcontra => hnotmem (hcontra ▸ hmb)
        right
        rw [List.indexOf_cons_ne _ (Ne.symm hna), List.indexOf_cons_ne _ (Ne.symm hnb)]
        exact Nat.succ_lt_succ h1
    simp only [failoverGo]
    cases hc : apis apiId with
    | none => exact hlift tot last
    | some cfg =>
      by_cases hk : cfg.hasKey = true
      · simp only [hk, if_true]
        cases h2 : (tryProv (outcome apiId) 1 maxAttempts).2 with
        | ok v =>
          simp only
          exact List.pairwise_map.mpr
            (pairwiseOfForall (fun a b => Or.inl rfl) _)
        | error q =>
          simp only
          rw [List.pairwise_append]
          refine ⟨List.pairwise_map.mpr
            (pairwiseOfForall (fun a b => Or.inl rfl) _), hlift _ _, ?_⟩
          intro a ha b hb
          simp only [List.mem_map] at ha
          obtain ⟨n, _, rfl⟩ := ha
          have hmb := (failoverGo_mem apis maxAttempts outcome rest _ _ b hb).1
          have hnb : b.1 ≠ apiId := fun hcontra => hnotmem (hcontra ▸ hmb)
          right
          rw [List.indexOf_cons_ne _ (Ne.symm hnb)]
          simp [List.indexOf_cons_self]
      · simp only [Bool.not_eq_true] at hk
        simp only [hk, Bool.false_eq_true, if_false]
        exact hlift tot last

/-- If the failover loop succeeds, the trace ends exactly at the first
successful attempt: the last trace entry is the succeeding call and all
earlier attempts failed. -/
theorem failoverGo_first_success (apis : String → Option ApiCfg) (maxAttempts : Nat)
    (outcome : String → Nat → Except String String) :
    ∀ (l : List String) (tot : Nat) (last : Option String) (v : String),
      (failoverGo apis maxAttempts outcome l tot last).2 = .ok v →
      (failoverGo apis maxAttempts outcome l tot last).1 ≠ [] ∧
      (∃ p n, (failoverGo apis maxAttempts outcome l tot last).1.getLast?
          = some (p, n) ∧ outcome p n = .ok v) ∧
      ∀ e ∈ (failoverGo apis maxAttempts outcome l tot last).1.dropLast,
        ∃ er, outcome e.1 e.2 = .error er := by
  intro l
  induction l with
  | nil => intro tot last v hv; simp [failoverGo] at hv
  | cons apiId rest ih =>
    intro tot last v hv
    cases hc : apis apiId with
    | none =>
      rw [failoverGo_cons_none hc] at hv ⊢
      exact ih tot last v hv
    | some cfg =>
      by_cases hk : cfg.hasKey = true
      · cases h2 : (tryProv (outcome apiId) 1 maxAttempts).2 with
        | ok w =>
          rw [failoverGo_cons_ok hc hk h2] at hv ⊢
          simp only [Except.ok.injEq] at hv
          subst hv
          obtain ⟨hne, ⟨n, hlast, hok⟩, hfail⟩ :=
            tryProv_ok_first_success (outcome apiId) 1 maxAttempts w h2
          refine ⟨by simpa using hne, ⟨apiId, n, ?_, hok⟩, ?_⟩
          · simp only [List.getLast?_map, hlast]; rfl
          · intro e he
            rw [← List.map_dropLast] at he
            simp only [List.mem_map] at he
            obtain ⟨m, hm, rfl⟩ := he
            exact hfail m hm
        | error q =>
          obtain ⟨n, le⟩ := q
          rw [failoverGo_cons_err hc hk h2] at hv ⊢
          dsimp only at hv ⊢
          obtain ⟨hne2, ⟨p, m, hlast2, hok2⟩, hfail2⟩ := ih _ _ v hv
          refine ⟨by simp [hne2], ⟨p, m, ?_, hok2⟩, ?_⟩
          · rw [List.getLast?_append_of_ne_nil _ hne2]
            exact hlast2
          · intro e he
            rw [List.dropLast_append_of_ne_nil _ hne2] at he
            simp only [List.mem_append] at he
            rcases he with he | he
            · simp only [List.mem_map] at he
              obtain ⟨w, hw, rfl⟩ := he
              exact tryProv_error_all_fail (outcome apiId) 1 maxAttempts
                (n, le) h2 w hw
            · exact hfail2 e he
      · simp only [Bool.not_eq_true] at hk
        rw [failoverGo_cons_nokey hc hk] at hv ⊢
        exact ih tot last v hv

/-- C2 counterexample: the configured fallback order is a raw
comma-separated setting (`retry_transcription_order` /
`retry_ai_order`) with no deduplication, so an order listing the same
provider twice is configurable — and the `for (const apiId of
apiOrder)` loop then runs the full retry loop once per listing.  With
the order `whisper147,whisper147` and `maxAttempts = 1`, the provider
`whisper147` is attempted twice, falsifying the claim's
"at most `maxAttempts` attempts per provider" at this concrete input. -/
theorem c2_counterexample :
    ((transcribeRun
        (fun i => if i = "whisper147" then some ⟨"whisper147", true⟩ else none)
        ["whisper147", "whisper147"] 1 none
        (fun _ _ => .error "網路錯誤")).1.filter
      (fun e => e.1 = "whisper147")).length = 2 ∧
    ¬ (((transcribeRun
        (fun i => if i = "whisper147" then some ⟨"whisper147", true⟩ else none)
        ["whisper147", "whisper147"] 1 none
        (fun _ _ => .error "網路錯誤")).1.filter
      (fun e => e.1 = "whisper147")).length ≤ 1) := by
  constructor <;> decide

/-- C2 (amended): For every (duplicate-free) configured provider order and every
retry configuration, the failover executor — identical control flow in
`transcribe` and `match`, witnessed by the shared trace — attempts each
provider at most `maxAttempts` times, only ever invokes providers from
the order that are configured with a credential, tries providers in
non-decreasing fallback-order position, and on success the returned
value is the first successful attempt's result: the trace ends at the
succeeding attempt and every earlier attempt failed. -/
theorem c2_failover_discipline (apis : String → Option ApiCfg)
    (apiOrder : List String) (maxAttempts : Nat)
    (outcome : String → Nat → Except String String)
    (hnd : apiOrder.Nodup) :
    (matchRun apis apiOrder maxAttempts none outcome).1
      = (transcribeRun apis apiOrder maxAttempts none outcome).1 ∧
    (∀ p, ((transcribeRun apis apiOrder maxAttempts none outcome).1.filter
        (fun e => e.1 = p)).length ≤ maxAttempts) ∧
    (∀ e ∈ (transcribeRun apis apiOrder maxAttempts none outcome).1,
      e.1 ∈ apiOrder ∧ ∃ cfg, apis e.1 = some cfg ∧ cfg.hasKey = true) ∧
    List.Pairwise
      (fun a b => a.1 = b.1 ∨ apiOrder.indexOf a.1 < apiOrder.indexOf b.1)
      (transcribeRun apis apiOrder maxAttempts none outcome).1 ∧
    (∀ v, (transcribeRun apis apiOrder maxAttempts none outcome).2 = .ok v →
      (matchRun apis apiOrder maxAttempts none outcome).2 = .ok v ∧
      (∃ p n, (transcribeRun apis apiOrder maxAttempts none outcome).1.getLast?
          = some (p, n) ∧ outcome p n = .ok v) ∧
      ∀ e ∈ (transcribeRun apis apiOrder maxAttempts none outcome).1.dropLast,
        ∃ er, outcome e.1 e.2 = .error er) := by
  have htr : (transcribeRun apis apiOrder maxAttempts none outcome).1
      = (failoverGo apis maxAttempts outcome apiOrder 0 none).1 := rfl
  have hmr : (matchRun apis apiOrder maxAttempts none outcome).1
      = (failoverGo apis maxAttempts outcome apiOrder 0 none).1 := rfl
  refine ⟨hmr.trans htr.symm, ?_, ?_, ?_, ?_⟩
  · intro p
    rw [htr]
    exact failoverGo_count apis maxAttempts outcome apiOrder 0 none hnd p
  · intro e he
    rw [htr] at he
    exact failoverGo_mem apis maxAttempts outcome apiOrder 0 none e he
  · rw [htr]
    exact failoverGo_ordered apis maxAttempts outcome apiOrder 0 none hnd
  · intro v hv
    have hraw : (failoverGo apis maxAttempts outcome apiOrder 0 none).2 = .ok v := by
      have : (transcribeRun apis apiOrder maxAttempts none outcome).2
          = ((failoverGo apis maxAttempts outcome apiOrder 0 none).2.mapError
            (fun p => transcribeAggregateMsg p.1 p.2)) := rfl
      rw [this] at hv
      cases h : (failoverGo apis maxAttempts outcome apiOrder 0 none).2 with
      | ok w => rw [h] at hv; simpa [Except.mapError] using hv
      | error q => rw [h] at hv; simp [Except.mapError] at hv
    obtain ⟨_, hlast, hfail⟩ :=
      failoverGo_first_success apis maxAttempts outcome apiOrder 0 none v hraw
    refine ⟨?_, ?_, ?_⟩
    · have : (matchRun apis apiOrder maxAttempts none outcome).2
          = ((failoverGo apis maxAttempts outcome apiOrder 0 none).2.mapError
            (fun p => matchAggregateMsg p.1 p.2)) := rfl
      rw [this, hraw]
      rfl
    · rw [htr]
      exact hlast
    · rw [htr]
      exact hfail

/-- Witness for `c2_failover_discipline`: a keyless first provider and a
second provider succeeding on its second attempt. -/
theorem c2_failover_discipline_witness :
    (["whisper147", "assemblyai"] : List String).Nodup ∧
    ((transcribeRun
        (fun i => if i = "whisper147" then some ⟨"whisper147", false⟩
          else if i = "assemblyai" then some ⟨"assemblyai", true⟩ else none)
        ["whisper147", "assemblyai"] 3 none
        (fun i n => if i = "assemblyai" && n = 2 then .ok "data"
          else .error "網路錯誤")).1.filter
      (fun e => e.1 = "assemblyai")).length ≤ 3 :=
  ⟨by decide,
    (c2_failover_discipline
      (fun i => if i = "whisper147" then some ⟨"whisper147", false⟩
        else if i = "assemblyai" then some ⟨"assemblyai", true⟩ else none)
      ["whisper147", "assemblyai"] 3
      (fun i n => if i = "assemblyai" && n = 2 then .ok "data"
        else .error "網路錯誤")
      (by decide)).2.1 "assemblyai"⟩

/-! ## Job runner lemmas (C1, C3, C4, C5) -/

theorem applyCmd_logs (s : St) (c : Option ExtCmd) :
    (applyCmd s c).logs = s.logs ∧ (applyCmd s c).invoked = s.invoked := by
  match c with
  | none => exact ⟨rfl, rfl⟩
  | some .pause => cases h : s.active <;> simp [applyCmd, h]
  | some .cancel => cases h : s.active <;> simp [applyCmd, h]

theorem consumeBoundary_logs (s : St) :
    (consumeBoundary s).logs = s.logs ∧ (consumeBoundary s).invoked = s.invoked := by
  unfold consumeBoundary
  cases h : s.sched with
  | nil => exact ⟨rfl, rfl⟩
  | cons c rest => exact applyCmd_logs _ c

/-- External commands never lower the pause flag. -/
theorem applyCmd_paused_mono (s : St) (c : Option ExtCmd) (fl : Flags)
    (h : s.active = some fl) (hp : fl.paused = true) :
    ∃ fl', (applyCmd s c).active = some fl' ∧ fl'.paused = true := by
  match c with
  | none => exact ⟨fl, h, hp⟩
  | some .pause => simp [applyCmd, h]
  | some .cancel => simp [applyCmd, h, hp]

theorem consumeBoundary_paused_mono (s : St) (fl : Flags)
    (h : s.active = some fl) (hp : fl.paused = true) :
    ∃ fl', (consumeBoundary s).active = some fl' ∧ fl'.paused = true := by
  unfold consumeBoundary
  cases hs : s.sched with
  | nil => exact ⟨fl, h, hp⟩
  | cons c rest => exact applyCmd_paused_mono _ c fl h hp

theorem applyCmd_inv (s : St) (c : Option ExtCmd) (h : Inv s) :
    Inv (applyCmd s c) := by
  match c with
  | none => exact h
  | some .pause =>
    cases hs : s.active with
    | none => simpa [applyCmd, hs] using h
    | some fl =>
      intro fl' heq hp
      simp [applyCmd, hs] at heq ⊢
  | some .cancel =>
    cases hs : s.active with
    | none => simpa [applyCmd, hs] using h
    | some fl =>
      intro fl' heq hp
      simp only [applyCmd, hs, Option.some.injEq] at heq
      subst heq
      simp only [applyCmd, hs]
      exact h fl hs hp

theorem consumeBoundary_inv (s : St) (h : Inv s) : Inv (consumeBoundary s) := by
  unfold consumeBoundary
  cases hs : s.sched with
  | nil => exact h
  | cons c rest =>
    refine applyCmd_inv _ c ?_
    intro fl heq hp
    exact h fl heq hp

theorem runStepBody_active {α : Type} (s : St) (n : String) (p : Nat)
    (fn : Except String α) : (runStepBody s n p fn).1.active = s.active := by
  cases fn <;> simp [runStepBody, updateStatus, addLog]

theorem runStep_inv {α : Type} (s : St) (n : String) (p : Nat)
    (fn : Except String α) (h : Inv s) : Inv (runStep s n p fn).1 := by
  have hc : Inv (consumeBoundary s) := consumeBoundary_inv s h
  unfold runStep
  cases hact : (consumeBoundary s).active with
  | none =>
    dsimp only
    intro fl heq hp
    rw [runStepBody_active, hact] at heq
    exact absurd heq (by simp)
  | some fl =>
    dsimp only
    by_cases hp : fl.paused = true
    · rw [if_pos hp]
      exact hc
    · rw [if_neg hp]
      by_cases hcnl : fl.cancelled = true
      · rw [if_pos hcnl]
        exact hc
      · rw [if_neg hcnl]
        intro fl' heq hp'
        rw [runStepBody_active, hact] at heq
        simp only [Option.some.injEq] at heq
        subst heq
        exact absurd hp' hp

theorem pstep_inv {α β : Type} (x : St × Except String α)
    (f : St → α → St × Except String β)
    (hx : Inv x.1) (hf : ∀ s v, Inv s → Inv (f s v).1) : Inv (pstep x f).1 := by
  obtain ⟨s, r⟩ := x
  cases r with
  | error e => exact hx
  | ok v => exact hf s v hx

theorem runMVPipeline_inv (s : St) (rc : Option String) (i o : Obj)
    (svc : Services) (h : Inv s) : Inv (runMVPipeline s rc i o svc).1 := by
  unfold runMVPipeline
  refine pstep_inv _ _ ?_ ?_
  · by_cases hrc : truthy rc = true
    · simp only [hrc, if_true]
      exact runStep_inv _ _ _ _ h
    · simp only [hrc, Bool.false_eq_true, if_false]
      exact h
  · intro s1 data h1
    by_cases ha : (!truthy (data "audioUrl")) = true
    · simp only [ha, if_true]; exact h1
    · simp only [ha, Bool.false_eq_true, if_false]
      by_cases hl : (!truthy (data "lyrics")) = true
      · simp only [hl, if_true]; exact h1
      · simp only [hl, Bool.false_eq_true, if_false]
        refine pstep_inv _ _ (runStep_inv _ _ _ _ h1) ?_
        intro s2 _ h2
        refine pstep_inv _ _ (runStep_inv _ _ _ _ h2) ?_
        intro s3 matchData h3
        refine pstep_inv _ _ ?_ ?_
        · by_cases hac : svc.autoCorrection = true
          · simp only [hac, if_true]
            exact pstep_inv _ _ (runStep_inv _ _ _ _ h3) (fun s4 cr h4 => h4)
          · simp only [hac, Bool.false_eq_true, if_false]
            exact h3
        · intro s4 _ h4
          refine pstep_inv _ _ (runStep_inv _ _ _ _ h4) ?_
          intro s5 json h5
          by_cases hup : (truthy rc && svc.autoUpload) = true
          · simp only [hup, if_true]
            exact pstep_inv _ _ (runStep_inv _ _ _ _ h5) (fun s6 _ h6 => h6)
          · simp only [hup, Bool.false_eq_true, if_false]
            exact h5

theorem runAudioPipeline_inv (s : St) (rc : Option String) (i o : Obj)
    (svc : Services) (h : Inv s) : Inv (runAudioPipeline s rc i o svc).1 := by
  unfold runAudioPipeline
  refine pstep_inv _ _ ?_ ?_
  · by_cases hrc : truthy rc = true
    · simp only [hrc, if_true]
      exact runStep_inv _ _ _ _ h
    · simp only [hrc, Bool.false_eq_true, if_false]
      exact h
  · intro s1 data h1
    by_cases ha : (!truthy (data "audioUrl") && !truthy (data "finalAudioUrl")) = true
    · simp only [ha, if_true]; exact h1
    · simp only [ha, Bool.false_eq_true, if_false]
      by_cases ht : (!truthy (data "transcript")) = true
      · simp only [ht, if_true]; exact h1
      · simp only [ht, Bool.false_eq_true, if_false]
        refine pstep_inv _ _ (runStep_inv _ _ _ _ h1) ?_
        intro s2 _ h2
        refine pstep_inv _ _ (runStep_inv _ _ _ _ h2) ?_
        intro s3 _ h3
        refine pstep_inv _ _ (runStep_inv _ _ _ _ h3) ?_
        intro s4 matchData h4
        refine pstep_inv _ _ ?_ ?_
        · by_cases hac : svc.autoCorrection = true
          · simp only [hac, if_true]
            exact pstep_inv _ _ (runStep_inv _ _ _ _ h4) (fun s5 cr h5 => h5)
          · simp only [hac, Bool.false_eq_true, if_false]
            exact h4
        · intro s5 _ h5
          refine pstep_inv _ _ (runStep_inv _ _ _ _ h5) ?_
          intro s6 json h6
          by_cases hup : (truthy rc && svc.autoUpload) = true
          · simp only [hup, if_true]
            exact pstep_inv _ _ (runStep_inv _ _ _ _ h6) (fun s7 _ h7 => h7)
          · simp only [hup, Bool.false_eq_true, if_false]
            exact h6

/-- Every run ends in exactly one of the four terminal shapes: completed
(entry removed), cancelled (entry removed), failed (entry removed), or
pause-interrupted (entry retained, flag raised, status `paused`). -/
theorem runJob_cases (s0 : St) (type : String) (rc : Option String)
    (i o : Obj) (svc : Services) :
    ((runJob s0 type rc i o svc).active = none ∧
      (runJob s0 type rc i o svc).job.status = .completed) ∨
    ((runJob s0 type rc i o svc).active = none ∧
      (runJob s0 type rc i o svc).job.status = .cancelled) ∨
    ((runJob s0 type rc i o svc).active = none ∧
      (runJob s0 type rc i o svc).job.status = .failed) ∨
    (∃ fl, (runJob s0 type rc i o svc).active = some fl ∧ fl.paused = true ∧
      (runJob s0 type rc i o svc).job.status = .paused) := by
  have hInv0 : Inv { s0 with
      active := some ⟨false, false⟩,
      job := { s0.job with status := .running } } := by
    intro fl heq hp
    simp only [Option.some.injEq] at heq
    subst heq
    exact absurd hp (by simp)
  unfold runJob
  cases hr : (if type = "mv" then
      runMVPipeline
        { s0 with
          active := some ⟨false, false⟩,
          job := { s0.job with status := .running } }
        rc i o svc
    else
      runAudioPipeline
        { s0 with
          active := some ⟨false, false⟩,
          job := { s0.job with status := .running } }
        rc i o svc) with
  | mk s' res =>
    have hInv : Inv s' := by
      have : Inv (if type = "mv" then
          runMVPipeline
            { s0 with
              active := some ⟨false, false⟩,
              job := { s0.job with status := .running } }
            rc i o svc
        else
          runAudioPipeline
            { s0 with
              active := some ⟨false, false⟩,
              job := { s0.job with status := .running } }
            rc i o svc).1 := by
        by_cases ht : type = "mv"
        · rw [if_pos ht]
          exact runMVPipeline_inv _ _ _ _ _ hInv0
        · rw [if_neg ht]
          exact runAudioPipeline_inv _ _ _ _ _ hInv0
      rw [hr] at this
      exact this
    cases res with
    | ok json =>
      dsimp only
      exact Or.inl ⟨rfl, rfl⟩
    | error e =>
      dsimp only
      cases hact : s'.active with
      | none =>
        dsimp only
        exact Or.inr (Or.inr (Or.inl ⟨rfl, rfl⟩))
      | some fl =>
        dsimp only
        by_cases hp : fl.paused = true
        · rw [if_pos hp]
          exact Or.inr (Or.inr (Or.inr ⟨fl, hact, hp, hInv fl hact hp⟩))
        · rw [if_neg hp]
          by_cases hcnl : fl.cancelled = true
          · rw [if_pos hcnl]
            exact Or.inr (Or.inl ⟨rfl, rfl⟩)
          · rw [if_neg hcnl]
            exact Or.inr (Or.inr (Or.inl ⟨rfl, rfl⟩))

/-- C1: For every job and every step, if the job's in-memory pause flag
is set before `runStep` begins that step, then (a) that `runStep`
returns the control error `已暫停` without invoking the step's work,
writing any log entry (in particular no `started` entry), and (b) since
nothing ever clears the flag during a run, the run's final state still
carries it, and the job's final recorded status is `paused` — not
`failed` and not `completed`. -/
theorem c1_pause_before_step :
    (∀ (α : Type) (s : St) (fl : Flags) (stepName : String) (progress : Nat)
        (fn : Except String α),
      s.active = some fl → fl.paused = true →
      (runStep s stepName progress fn).2 = .error "已暫停" ∧
      (runStep s stepName progress fn).1.invoked = s.invoked ∧
      (runStep s stepName progress fn).1.logs = s.logs) ∧
    (∀ (s0 : St) (type : String) (ragicCode : Option String)
        (inputData overrides : Obj) (svc : Services) (fl : Flags),
      (runJob s0 type ragicCode inputData overrides svc).active = some fl →
      fl.paused = true →
      (runJob s0 type ragicCode inputData overrides svc).job.status = .paused ∧
      (runJob s0 type ragicCode inputData overrides svc).job.status ≠ .failed ∧
      (runJob s0 type ragicCode inputData overrides svc).job.status ≠ .completed) := by
  constructor
  · intro α s fl stepName progress fn hact hp
    obtain ⟨fl', hact', hp'⟩ := consumeBoundary_paused_mono s fl hact hp
    have hrs : runStep s stepName progress fn
        = (consumeBoundary s, .error "已暫停") := by
      unfold runStep
      rw [hact']
      dsimp only
      rw [if_pos hp']
    rw [hrs]
    exact ⟨rfl, (consumeBoundary_logs s).2, (consumeBoundary_logs s).1⟩
  · intro s0 type rc i o svc fl hact hp
    rcases runJob_cases s0 type rc i o svc with
      ⟨hnone, _⟩ | ⟨hnone, _⟩ | ⟨hnone, _⟩ | ⟨fl', hsome, _, hstat⟩
    · rw [hnone] at hact; exact absurd hact (by simp)
    · rw [hnone] at hact; exact absurd hact (by simp)
    · rw [hnone] at hact; exact absurd hact (by simp)
    · exact ⟨hstat, by rw [hstat]; simp, by rw [hstat]; simp⟩

/-- Witness for `c1_pause_before_step`: a paused entry makes `runStep`
raise the control error with no logging, and a run with `pause()`
arriving before the first step ends with status `paused`. -/
theorem c1_pause_before_step_witness :
    ((runStep pausedSt "語音識別" 40 (Except.ok "t")).2 = .error "已暫停" ∧
     (runStep pausedSt "語音識別" 40 (Except.ok "t")).1.invoked = pausedSt.invoked ∧
     (runStep pausedSt "語音識別" 40 (Except.ok "t")).1.logs = pausedSt.logs) ∧
    (runJob (freshSt [some .pause]) "mv" none mvInputSample emptyObj
        svcAllOk).job.status = .paused :=
  ⟨c1_pause_before_step.1 String pausedSt ⟨true, false⟩ "語音識別" 40
      (Except.ok "t") rfl rfl,
   (c1_pause_before_step.2 (freshSt [some .pause]) "mv" none mvInputSample
      emptyObj svcAllOk ⟨true, false⟩ (by decide) rfl).1⟩

/-- C3 counterexample: a run interrupted by `pause()` before its first
step terminates (the async task returns) with final status `paused`,
yet the job's entry is still present in the in-memory control-flag map
— the pause path of `runJob`'s catch block performs no
`activeJobs.delete(jobId)`. -/
theorem c3_counterexample :
    (runJob (freshSt [some .pause]) "audio" none audioInputSample emptyObj
        svcAllOk).job.status = .paused ∧
    (runJob (freshSt [some .pause]) "audio" none audioInputSample emptyObj
        svcAllOk).active = some ⟨true, false⟩ := by
  constructor <;> decide

/-- C3 (amended): after a run terminates with status `completed`,
`failed`, or `cancelled`, the job's entry has been removed from the
in-memory control-flag map; but after a pause interruption the entry
remains (any run whose final state still has an entry is exactly a
pause-interrupted run, with status `paused`). -/
theorem c3_amended_active_removal (s0 : St) (type : String)
    (rc : Option String) (i o : Obj) (svc : Services) :
    ((runJob s0 type rc i o svc).job.status = .completed →
      (runJob s0 type rc i o svc).active = none) ∧
    ((runJob s0 type rc i o svc).job.status = .failed →
      (runJob s0 type rc i o svc).active = none) ∧
    ((runJob s0 type rc i o svc).job.status = .cancelled →
      (runJob s0 type rc i o svc).active = none) ∧
    (∀ fl, (runJob s0 type rc i o svc).active = some fl →
      (runJob s0 type rc i o svc).job.status = .paused) := by
  rcases runJob_cases s0 type rc i o svc with
    ⟨hnone, hstat⟩ | ⟨hnone, hstat⟩ | ⟨hnone, hstat⟩ | ⟨fl', hsome, _, hstat⟩
  · exact ⟨fun _ => hnone, fun _ => hnone, fun _ => hnone,
      fun fl h => by rw [hnone] at h; exact absurd h (by simp)⟩
  · exact ⟨fun _ => hnone, fun _ => hnone, fun _ => hnone,
      fun fl h => by rw [hnone] at h; exact absurd h (by simp)⟩
  · exact ⟨fun _ => hnone, fun _ => hnone, fun _ => hnone,
      fun fl h => by rw [hnone] at h; exact absurd h (by simp)⟩
  · refine ⟨fun h => ?_, fun h => ?_, fun h => ?_, fun fl _ => hstat⟩
    · rw [hstat] at h; exact absurd h (by simp)
    · rw [hstat] at h; exact absurd h (by simp)
    · rw [hstat] at h; exact absurd h (by simp)

/-- Witness for `c3_amended_active_removal` on a successful run. -/
theorem c3_amended_active_removal_witness :
    (runJob (freshSt []) "mv" none mvInputSample emptyObj svcAllOk).job.status
      = .completed ∧
    (runJob (freshSt []) "mv" none mvInputSample emptyObj svcAllOk).active
      = none :=
  ⟨by decide,
    (c3_amended_active_removal (freshSt []) "mv" none mvInputSample emptyObj
      svcAllOk).1 (by decide)⟩

/-- C4 counterexample: `runStep(jobId, name, targetProgress, work)`
stores the job's progress as *exactly* the passed `targetProgress`
(`db.jobs.updateStatus(jobId, 'running', stepName, progress)` with the
unmodified argument), not a value strictly lower than it: at
`targetProgress = 40` the stored progress is `40`, and `40 < 40` is
false. -/
theorem c4_counterexample :
    (runStep (freshSt []) "語音識別" 40 (Except.ok "t")).1.job.progress = 40 ∧
    ¬ ((runStep (freshSt []) "語音識別" 40 (Except.ok "t")).1.job.progress < 40) := by
  constructor <;> decide

/-- C4 (amended): for every `runStep(jobId, name, targetProgress, work)`
invocation that passes the control-flag check, before `work`'s outcome
matters the job's status is set to `running`, its current step to
`name`, and its progress to exactly `targetProgress`; a `started` log
entry is recorded ahead of the single outcome log entry, and the work
closure is invoked exactly once.  All of this holds whether `work`
succeeds or fails, which shows it happens before `work`'s result is
processed. -/
theorem c4_amended_runStep_effects {α : Type} (s : St) (stepName : String)
    (progress : Nat) (fn : Except String α)
    (hpass : ∀ fl, (consumeBoundary s).active = some fl →
      fl.paused = false ∧ fl.cancelled = false) :
    (runStep s stepName progress fn).1.job.status = .running ∧
    (runStep s stepName progress fn).1.job.currentStep = some stepName ∧
    (runStep s stepName progress fn).1.job.progress = progress ∧
    (∃ outcomeEntry,
      (runStep s stepName progress fn).1.logs = (consumeBoundary s).logs
        ++ [⟨stepName, .started, "開始執行: " ++ stepName⟩, outcomeEntry]) ∧
    (runStep s stepName progress fn).1.invoked
      = (consumeBoundary s).invoked ++ [stepName] := by
  have hbody : ∀ s' : St,
      (runStepBody s' stepName progress fn).1.job.status = .running ∧
      (runStepBody s' stepName progress fn).1.job.currentStep = some stepName ∧
      (runStepBody s' stepName progress fn).1.job.progress = progress ∧
      (∃ outcomeEntry,
        (runStepBody s' stepName progress fn).1.logs = s'.logs
          ++ [⟨stepName, .started, "開始執行: " ++ stepName⟩, outcomeEntry]) ∧
      (runStepBody s' stepName progress fn).1.invoked
        = s'.invoked ++ [stepName] := by
    intro s'
    cases fn with
    | ok v =>
      refine ⟨rfl, rfl, rfl, ⟨⟨stepName, .completed, "完成: " ++ stepName⟩, ?_⟩, rfl⟩
      simp [runStepBody, addLog, updateStatus]
    | error e =>
      refine ⟨rfl, rfl, rfl, ⟨⟨stepName, .failed, e⟩, ?_⟩, rfl⟩
      simp [runStepBody, addLog, updateStatus]
  unfold runStep
  cases hact : (consumeBoundary s).active with
  | none => exact hbody (consumeBoundary s)
  | some fl =>
    obtain ⟨hp, hcnl⟩ := hpass fl hact
    dsimp only
    rw [hp, hcnl]
    simp only [Bool.false_eq_true, if_false]
    exact hbody (consumeBoundary s)

/-- Witness for `c4_amended_runStep_effects` on a clean state. -/
theorem c4_amended_runStep_effects_witness :
    (∀ fl, (consumeBoundary (freshSt [])).active = some fl →
      fl.paused = false ∧ fl.cancelled = false) ∧
    (runStep (freshSt []) "讀取 Ragic" 5 (Except.ok "d")).1.job.status
      = .running :=
  ⟨by
      intro fl h
      rw [show (consumeBoundary (freshSt [])).active = none from rfl] at h
      exact Option.noConfusion h,
    (c4_amended_runStep_effects (freshSt []) "讀取 Ragic" 5 (Except.ok "d")
      (by
        intro fl h
        rw [show (consumeBoundary (freshSt [])).active = none from rfl] at h
        exact Option.noConfusion h)).1⟩

/-- Evaluation of `runStep` on a clean state (no scheduled external
call, both flags down) with a succeeding work closure. -/
theorem runStep_clean_ok {α : Type} (s : St) (h1 : s.sched = [])
    (h2 : s.active = some ⟨false, false⟩) (n : String) (p : Nat) (v : α) :
    runStep s n p (.ok v) =
      ({ s with
          job :=
            { s.job with
              status := .running
              currentStep := some n
              progress := p }
          logs := s.logs ++ [⟨n, .started, "開始執行: " ++ n⟩,
                             ⟨n, .completed, "完成: " ++ n⟩]
          invoked := s.invoked ++ [n] }, .ok v) := by
  have hcb : consumeBoundary s = s := by
    unfold consumeBoundary
    rw [h1]
  unfold runStep
  rw [hcb, h2]
  dsimp only
  simp [runStepBody, addLog, updateStatus, h2]

/-- Evaluation of `runStep` on a clean state with a failing work
closure. -/
theorem runStep_clean_err {α : Type} (s : St) (h1 : s.sched = [])
    (h2 : s.active = some ⟨false, false⟩) (n : String) (p : Nat) (e : String) :
    runStep s n p (.error e : Except String α) =
      ({ s with
          job :=
            { s.job with
              status := .running
              currentStep := some n
              progress := p }
          logs := s.logs ++ [⟨n, .started, "開始執行: " ++ n⟩,
                             ⟨n, .failed, e⟩]
          invoked := s.invoked ++ [n] }, .error e) := by
  have hcb : consumeBoundary s = s := by
    unfold consumeBoundary
    rw [h1]
  unfold runStep
  rw [hcb, h2]
  dsimp only
  simp [runStepBody, addLog, updateStatus, h2]

/-- A clean MV run whose resolved input lacks a truthy `audioUrl` aborts
with the validation error right after input resolution: no transcription
(`語音識別`) log entry is ever added. -/
theorem runMVPipeline_missing_audio (s : St) (rc : Option String) (i o : Obj)
    (svc : Services) (d : Obj)
    (hsched : s.sched = []) (hact : s.active = some ⟨false, false⟩)
    (hres : resolveInput rc svc i o = .ok d)
    (haud : truthy (d "audioUrl") = false) :
    ∃ s', runMVPipeline s rc i o svc = (s', .error mvMissingAudioMsg) ∧
      s'.active = some ⟨false, false⟩ ∧
      s'.logs.filter (fun l => l.step == "語音識別")
        = s.logs.filter (fun l => l.step == "語音識別") := by
  unfold runMVPipeline
  by_cases hrc : truthy rc = true
  · have hfn : svc.ragicRead.map (fun rd => mergeInputs rd i o) = .ok d := by
      unfold resolveInput at hres
      rw [if_pos hrc] at hres
      exact hres
    rw [if_pos hrc, hfn, runStep_clean_ok s hsched hact]
    dsimp only [pstep]
    rw [haud]
    simp only [Bool.not_false, if_true]
    refine ⟨_, rfl, hact, ?_⟩
    rw [List.filter_append]
    have : List.filter (fun l => l.step == "語音識別")
        [(⟨"讀取 Ragic", .started, "開始執行: " ++ "讀取 Ragic"⟩ : LogEntry),
         ⟨"讀取 Ragic", .completed, "完成: " ++ "讀取 Ragic"⟩] = [] := by decide
    rw [this, List.append_nil]
  · rw [if_neg hrc]
    have hd : spread i o = d := by
      unfold resolveInput at hres
      rw [if_neg hrc] at hres
      simpa using hres
    have haud' : truthy (spread i o "audioUrl") = false := by
      rw [hd]; exact haud
    dsimp only [pstep]
    rw [haud']
    simp only [Bool.not_false, if_true]
    exact ⟨s, rfl, hact, rfl⟩

/-- The voice-note analogue: neither `audioUrl` nor `finalAudioUrl`
truthy aborts with `缺少音頻 URL！` before any step runs. -/
theorem runAudioPipeline_missing_audio (s : St) (rc : Option String)
    (i o : Obj) (svc : Services) (d : Obj)
    (hsched : s.sched = []) (hact : s.active = some ⟨false, false⟩)
    (hres : resolveInput rc svc i o = .ok d)
    (haud : truthy (d "audioUrl") = false)
    (hfin : truthy (d "finalAudioUrl") = false) :
    ∃ s', runAudioPipeline s rc i o svc = (s', .error audioMissingAudioMsg) ∧
      s'.active = some ⟨false, false⟩ ∧
      s'.logs.filter (fun l => l.step == "語音識別")
        = s.logs.filter (fun l => l.step == "語音識別") := by
  unfold runAudioPipeline
  by_cases hrc : truthy rc = true
  · have hfn : svc.ragicRead.map (fun rd => mergeInputs rd i o) = .ok d := by
      unfold resolveInput at hres
      rw [if_pos hrc] at hres
      exact hres
    rw [if_pos hrc, hfn, runStep_clean_ok s hsched hact]
    dsimp only [pstep]
    rw [haud, hfin]
    simp only [Bool.not_false, Bool.and_self, if_true]
    refine ⟨_, rfl, hact, ?_⟩
    rw [List.filter_append]
    have : List.filter (fun l => l.step == "語音識別")
        [(⟨"讀取 Ragic", .started, "開始執行: " ++ "讀取 Ragic"⟩ : LogEntry),
         ⟨"讀取 Ragic", .completed, "完成: " ++ "讀取 Ragic"⟩] = [] := by decide
    rw [this, List.append_nil]
  · rw [if_neg hrc]
    have hd : spread i o = d := by
      unfold resolveInput at hres
      rw [if_neg hrc] at hres
      simpa using hres
    have haud' : truthy (spread i o "audioUrl") = false := by
      rw [hd]; exact haud
    have hfin' : truthy (spread i o "finalAudioUrl") = false := by
      rw [hd]; exact hfin
    dsimp only [pstep]
    rw [haud', hfin']
    simp only [Bool.not_false, Bool.and_self, if_true]
    exact ⟨s, rfl, hact, rfl⟩

/-- C5: For every job whose resolved input (Ragic-fetched, direct, and
overrides merged) lacks a truthy audio-URL field — for the MV pipeline
`audioUrl`, for the voice pipeline both `audioUrl` and `finalAudioUrl`
— an uninterrupted run fails immediately with the validation error
naming the missing audio URL (`缺少音頻 URL！…`), the job's final status
is `failed`, and zero transcription-step (`語音識別`) log entries exist
for the job. -/
theorem c5_missing_audio_fails_early (s0 : St) (rc : Option String)
    (i o : Obj) (svc : Services) (d : Obj)
    (hsched : s0.sched = []) (hlogs : s0.logs = [])
    (hres : resolveInput rc svc i o = .ok d)
    (haud : truthy (d "audioUrl") = false) :
    ((runJob s0 "mv" rc i o svc).job.status = .failed ∧
     (runJob s0 "mv" rc i o svc).job.errorMessage = some mvMissingAudioMsg ∧
     (runJob s0 "mv" rc i o svc).logs.filter (fun l => l.step == "語音識別") = []) ∧
    (truthy (d "finalAudioUrl") = false →
     (runJob s0 "audio" rc i o svc).job.status = .failed ∧
     (runJob s0 "audio" rc i o svc).job.errorMessage = some audioMissingAudioMsg ∧
     (runJob s0 "audio" rc i o svc).logs.filter (fun l => l.step == "語音識別") = []) := by
  constructor
  · obtain ⟨s', hs', hact', hfilter⟩ := runMVPipeline_missing_audio
      { s0 with
        active := some ⟨false, false⟩,
        job := { s0.job with status := .running } } rc i o svc d
      hsched rfl hres haud
    unfold runJob
    rw [if_pos rfl, hs']
    dsimp only
    rw [hact']
    dsimp only
    simp only [Bool.false_eq_true, if_false]
    refine ⟨by trivial, by trivial, ?_⟩
    rw [hfilter]
    simp [hlogs]
  · intro hfin
    obtain ⟨s', hs', hact', hfilter⟩ := runAudioPipeline_missing_audio
      { s0 with
        active := some ⟨false, false⟩,
        job := { s0.job with status := .running } } rc i o svc d
      hsched rfl hres haud hfin
    unfold runJob
    rw [if_neg (by decide : ¬ ("audio" = "mv")), hs']
    dsimp only
    rw [hact']
    dsimp only
    simp only [Bool.false_eq_true, if_false]
    refine ⟨by trivial, by trivial, ?_⟩
    rw [hfilter]
    simp [hlogs]

/-- Witness for `c5_missing_audio_fails_early`: a direct input with
lyrics and transcript but no audio URL. -/
theorem c5_missing_audio_fails_early_witness :
    truthy ((spread mvInputNoAudio emptyObj) "audioUrl") = false ∧
    ((runJob (freshSt []) "mv" none mvInputNoAudio emptyObj svcAllOk).job.status
        = .failed ∧
     (runJob (freshSt []) "mv" none mvInputNoAudio emptyObj svcAllOk).job.errorMessage
        = some mvMissingAudioMsg ∧
     (runJob (freshSt []) "mv" none mvInputNoAudio emptyObj svcAllOk).logs.filter
        (fun l => l.step == "語音識別") = []) :=
  ⟨by decide,
    (c5_missing_audio_fails_early (freshSt []) none mvInputNoAudio emptyObj
      svcAllOk (spread mvInputNoAudio emptyObj) rfl rfl rfl (by decide)).1⟩

/-! ## C10 — smartSplit line-length bound -/

theorem cleanedStr_append (a b : List Char) :
    cleanedStr (a ++ b) = cleanedStr a ++ cleanedStr b := by
  simp [cleanedStr]

theorem runsCount_append (a : List Char) :
    ∀ (prev : Bool) (b : List Char),
      runsCount prev (a ++ b) = runsCount prev a + runsCount (endsLetter prev a) b := by
  induction a with
  | nil => intro prev b; simp [runsCount, endsLetter]
  | cons c rest ih =>
    intro prev b
    have hcons : (c :: rest) ++ b = c :: (rest ++ b) := rfl
    rw [hcons]
    simp only [runsCount, endsLetter]
    rw [ih (isEngLetter c) b]
    omega

theorem runsCount_no_letters (w : List Char)
    (h : ∀ c ∈ w, isEngLetter c = false) : ∀ b, runsCount b w = 0 := by
  induction w with
  | nil => intro b; rfl
  | cons c rest ih =>
    intro b
    have hc := h c (List.mem_cons_self _ _)
    simp only [runsCount, hc]
    simpa using ih (fun x hx => h x (List.mem_cons_of_mem _ hx)) _

theorem endsLetter_no_letters (w : List Char)
    (h : ∀ c ∈ w, isEngLetter c = false) : endsLetter false w = false := by
  induction w with
  | nil => rfl
  | cons c rest ih =>
    have hc := h c (List.mem_cons_self _ _)
    simp only [endsLetter, hc]
    exact ih (fun x hx => h x (List.mem_cons_of_mem _ hx))

/-- Whitespace characters are neither letters nor CJK. -/
theorem isWS_not_letter (c : Char) (h : isWS c = true) : isEngLetter c = false := by
  unfold isWS at h
  simp only [Bool.or_eq_true, decide_eq_true_eq] at h
  rcases h with ((rfl | rfl) | rfl) | rfl <;> decide

theorem isWS_not_CJK (c : Char) (h : isWS c = true) : isCJK c = false := by
  unfold isWS at h
  simp only [Bool.or_eq_true, decide_eq_true_eq] at h
  rcases h with ((rfl | rfl) | rfl) | rfl <;> decide

/-- Appending characters that the `getLength` cleaning step removes does
not change the counted length. -/
theorem getLength_append_cleanable (a p : List Char)
    (h : ∀ c ∈ p, isCleanPunct c = true) : getLength (a ++ p) = getLength a := by
  have hp : cleanedStr p = [] := by
    unfold cleanedStr
    rw [List.filter_eq_nil_iff]
    intro c hc
    simp [h c hc]
  unfold getLength
  rw [cleanedStr_append, hp, List.append_nil]

/-- `getLength` ignores leading non-punctuation characters that are
neither CJK nor letters (whitespace). -/
theorem getLength_ws_left (w a : List Char) (h : ∀ c ∈ w, isWS c = true) :
    getLength (w ++ a) = getLength a := by
  have hwsub : ∀ c ∈ cleanedStr w, isWS c = true := by
    intro c hc
    exact h c (List.mem_of_mem_filter hc)
  have hnl : ∀ c ∈ cleanedStr w, isEngLetter c = false :=
    fun c hc => isWS_not_letter c (hwsub c hc)
  have hnc : ∀ c ∈ cleanedStr w, isCJK c = false :=
    fun c hc => isWS_not_CJK c (hwsub c hc)
  unfold getLength
  rw [cleanedStr_append, List.filter_append, List.length_append, runsCount_append]
  have h1 : (List.filter isCJK (cleanedStr w)).length = 0 := by
    rw [List.length_eq_zero, List.filter_eq_nil_iff]
    intro c hc
    simp [hnc c hc]
  have h2 : runsCount false (cleanedStr w) = 0 := runsCount_no_letters _ hnl false
  rw [h1, h2, endsLetter_no_letters _ hnl]
  omega

/-- `getLength` ignores trailing whitespace. -/
theorem getLength_ws_right (a w : List Char) (h : ∀ c ∈ w, isWS c = true) :
    getLength (a ++ w) = getLength a := by
  have hwsub : ∀ c ∈ cleanedStr w, isWS c = true := by
    intro c hc
    exact h c (List.mem_of_mem_filter hc)
  have hnl : ∀ c ∈ cleanedStr w, isEngLetter c = false :=
    fun c hc => isWS_not_letter c (hwsub c hc)
  have hnc : ∀ c ∈ cleanedStr w, isCJK c = false :=
    fun c hc => isWS_not_CJK c (hwsub c hc)
  unfold getLength
  rw [cleanedStr_append, List.filter_append, List.length_append, runsCount_append]
  have h1 : (List.filter isCJK (cleanedStr w)).length = 0 := by
    rw [List.length_eq_zero, List.filter_eq_nil_iff]
    intro c hc
    simp [hnc c hc]
  have h2 : ∀ b, runsCount b (cleanedStr w) = 0 := runsCount_no_letters _ hnl
  rw [h1, h2]
  omega

/-- Trimming whitespace does not change the counted length. -/
theorem getLength_trim (l : List Char) : getLength (trimChars l) = getLength l := by
  unfold trimChars trimL trimR
  have h1 : l = l.takeWhile isWS ++ l.dropWhile isWS :=
    (List.takeWhile_append_dropWhile _ _).symm
  have h2 : getLength (l.dropWhile isWS) = getLength l := by
    conv_rhs => rw [h1]
    rw [getLength_ws_left]
    intro c hc
    exact List.mem_takeWhile_imp hc
  set m := l.dropWhile isWS with hm
  have h3 : m = ((m.reverse.dropWhile isWS).reverse) ++ (m.reverse.takeWhile isWS).reverse := by
    conv_lhs => rw [← List.reverse_reverse m]
    rw [← List.reverse_append, List.takeWhile_append_dropWhile]
  have h4 : getLength ((m.reverse.dropWhile isWS).reverse) = getLength m := by
    conv_rhs => rw [h3]
    rw [getLength_ws_right]
    intro c hc
    rw [List.mem_reverse] at hc
    exact List.mem_takeWhile_imp hc
  rw [h4, h2]

/-- The trailing-punctuation characters stripped by `removePunctuation`
are all characters that `getLength` ignores anyway. -/
theorem trailPunct_cleanable : ∀ c, isTrailPunct c = true → isCleanPunct c = true := by
  intro c hc
  have hmem : c ∈ trailPunctList := List.mem_of_elem_eq_true hc
  unfold trailPunctList at hmem
  simp only [List.mem_cons, List.not_mem_nil, or_false] at hmem
  unfold isCleanPunct
  rcases hmem with rfl | rfl | rfl | rfl | rfl | rfl | rfl | rfl | rfl | rfl
    | rfl | rfl | rfl | rfl <;> decide

/-- Small punctuation is also cleaned away by `getLength`. -/
theorem smallPunct_cleanable : ∀ c, isSmallPunct c = true → isCleanPunct c = true := by
  intro c hc
  unfold isSmallPunct at hc
  simp only [Bool.or_eq_true, decide_eq_true_eq] at hc
  rcases hc with (rfl | rfl) | rfl <;> decide

/-- Dropping the trailing punctuation run does not change the counted
length. -/
theorem getLength_dropTrailPunct (l : List Char) :
    getLength (dropTrailPunct l) = getLength l := by
  unfold dropTrailPunct
  have h3 : l = ((l.reverse.dropWhile isTrailPunct).reverse)
      ++ (l.reverse.takeWhile isTrailPunct).reverse := by
    conv_lhs => rw [← List.reverse_reverse l]
    rw [← List.reverse_append, List.takeWhile_append_dropWhile]
  conv_rhs => rw [h3]
  rw [getLength_append_cleanable]
  intro c hc
  rw [List.mem_reverse] at hc
  exact trailPunct_cleanable c (List.mem_takeWhile_imp hc)

/-- `removePunctuation` never increases (in fact preserves) the counted
length. -/
theorem getLength_removePunct (rt : Bool) (l : List Char) :
    getLength (removePunct rt l) = getLength l := by
  unfold removePunct
  cases rt with
  | true => rw [if_pos rfl, getLength_trim, getLength_dropTrailPunct]
  | false => rw [if_neg (by simp), getLength_trim]

/-- CJK characters are not ASCII letters. -/
theorem isCJK_not_letter (c : Char) (h : isCJK c = true) : isEngLetter c = false := by
  unfold isCJK at h
  simp only [Bool.and_eq_true, decide_eq_true_eq] at h
  by_contra hcon
  rw [Bool.not_eq_false] at hcon
  unfold isEngLetter at hcon
  simp only [Bool.or_eq_true, Bool.and_eq_true, decide_eq_true_eq] at hcon
  omega

/-- A single character counts at most 1. -/
theorem getLength_single (c : Char) : getLength [c] ≤ 1 := by
  unfold getLength cleanedStr
  by_cases hp : isCleanPunct c = true
  · simp [hp, runsCount]
  · simp only [Bool.not_eq_true] at hp
    by_cases hcjk : isCJK c = true
    · simp [hp, hcjk, isCJK_not_letter c hcjk, runsCount]
    · simp only [Bool.not_eq_true] at hcjk
      cases hl : isEngLetter c <;> simp [hp, hcjk, hl, runsCount]

theorem getLength_nil : getLength [] = 0 := rfl

/-- The forced character-by-character split keeps every pushed line and
the pending `tempLine` within the bound. -/
theorem forceSplit_bound (cfg : SplitCfg) (hmax : 1 ≤ cfg.maxChars) :
    ∀ (chars temp : List Char) (acc : List (List Char)),
      getLength temp ≤ cfg.maxChars →
      (∀ l ∈ acc, getLength l ≤ cfg.maxChars) →
      (∀ l ∈ (forceSplit cfg chars temp acc).1, getLength l ≤ cfg.maxChars) ∧
      getLength (forceSplit cfg chars temp acc).2 ≤ cfg.maxChars := by
  intro chars
  induction chars with
  | nil =>
    intro temp acc ht ha
    exact ⟨ha, ht⟩
  | cons c rest ih =>
    intro temp acc ht ha
    unfold forceSplit
    by_cases h1 : getLength (temp ++ [c]) ≤ cfg.maxChars
    · rw [if_pos h1]
      exact ih _ _ h1 ha
    · rw [if_neg h1]
      have hsingle : getLength [c] ≤ cfg.maxChars := by
        have := getLength_single c
        omega
      by_cases h2 : temp ≠ []
      · rw [if_pos h2]
        refine ih [c] _ hsingle ?_
        intro l hl
        rcases List.mem_append.mp hl with hl | hl
        · exact ha l hl
        · simp only [List.mem_singleton] at hl
          subst hl
          rw [getLength_removePunct]
          exact ht
      · rw [if_neg h2]
        exact ih [c] acc hsingle ha

/-- The small-punctuation accumulation loop keeps every pushed line and
the pending `currentLine` within the bound. -/
theorem procParts_bound (cfg : SplitCfg) (hmax : 1 ≤ cfg.maxChars) :
    ∀ (parts : List (List Char)) (current : List Char) (acc : List (List Char)),
      getLength current ≤ cfg.maxChars →
      (∀ l ∈ acc, getLength l ≤ cfg.maxChars) →
      (∀ l ∈ (procParts cfg parts current acc).1, getLength l ≤ cfg.maxChars) ∧
      getLength (procParts cfg parts current acc).2 ≤ cfg.maxChars := by
  intro parts
  induction parts with
  | nil =>
    intro current acc hc ha
    exact ⟨ha, hc⟩
  | cons part rest ih =>
    intro current acc hc ha
    unfold procParts
    have haccPush : ∀ l ∈ (if current ≠ [] then
        acc ++ [removePunct cfg.removeTrailing current] else acc),
        getLength l ≤ cfg.maxChars := by
      by_cases h : current ≠ []
      · rw [if_pos h]
        intro l hl
        rcases List.mem_append.mp hl with hl | hl
        · exact ha l hl
        · simp only [List.mem_singleton] at hl
          subst hl
          rw [getLength_removePunct]
          exact hc
      · rw [if_neg h]
        exact ha
    by_cases h1 : (part ≠ [] && part.all isSmallPunct) = true
    · rw [if_pos h1]
      have hcur : getLength (current ++ part) = getLength current := by
        apply getLength_append_cleanable
        intro c hcp
        have hall := (Bool.and_eq_true _ _ |>.mp h1).2
        exact smallPunct_cleanable c (List.all_eq_true.mp hall c hcp)
      exact ih _ _ (hcur ▸ hc) ha
    · rw [if_neg h1]
      by_cases h2 : getLength (current ++ part) ≤ cfg.maxChars
      · rw [if_pos h2]
        exact ih _ _ h2 ha
      · rw [if_neg h2]
        by_cases h3 : getLength part > cfg.maxChars
        · rw [if_pos h3]
          have hfs := forceSplit_bound cfg hmax part []
            (if current ≠ [] then
              acc ++ [removePunct cfg.removeTrailing current] else acc)
            (by rw [getLength_nil]; omega) haccPush
          exact ih _ _ hfs.2 hfs.1
        · rw [if_neg h3]
          exact ih _ _ (by omega) haccPush

/-- Processing one sentence keeps every produced line within the
bound. -/
theorem procSentence_bound (cfg : SplitCfg) (hmax : 1 ≤ cfg.maxChars)
    (acc : List (List Char)) (sentence : List Char)
    (ha : ∀ l ∈ acc, getLength l ≤ cfg.maxChars) :
    ∀ l ∈ procSentence cfg acc sentence, getLength l ≤ cfg.maxChars := by
  unfold procSentence
  by_cases h0 : trimChars sentence = []
  · rw [if_pos h0]
    exact ha
  · rw [if_neg h0]
    by_cases h1 : getLength (trimChars sentence) ≤ cfg.maxChars
    · rw [if_pos h1]
      intro l hl
      rcases List.mem_append.mp hl with hl | hl
      · exact ha l hl
      · simp only [List.mem_singleton] at hl
        subst hl
        rw [getLength_removePunct]
        exact h1
    · rw [if_neg h1]
      have hpp := procParts_bound cfg hmax
        ((splitRuns isSmallPunct (trimChars sentence)).filter
          (fun p => trimChars p ≠ [])) [] acc
        (by rw [getLength_nil]; omega) ha
      by_cases h2 : (procParts cfg
          ((splitRuns isSmallPunct (trimChars sentence)).filter
            (fun p => trimChars p ≠ [])) [] acc).2 ≠ []
      · rw [if_pos h2]
        intro l hl
        rcases List.mem_append.mp hl with hl | hl
        · exact hpp.1 l hl
        · simp only [List.mem_singleton] at hl
          subst hl
          rw [getLength_removePunct]
          exact hpp.2
      · rw [if_neg h2]
        exact hpp.1

/-- Folding a step that preserves a predicate preserves it. -/
theorem foldl_preserve {α β : Type} (P : β → Prop) (f : β → α → β)
    (h : ∀ b a, P b → P (f b a)) :
    ∀ (l : List α) (init : β), P init → P (l.foldl f init) := by
  intro l
  induction l with
  | nil => intro init hi; exact hi
  | cons x rest ih =>
    intro init hi
    exact ih (f init x) (h init x hi)

/-- C10: For every input text and configuration with `maxChars ≥ 1`
(the source guarantees this: `parseInt(...) || default` never yields 0),
every line produced by `smartSplit` has counted length at most
`maxChars`, where the counted length (`getLength`) is the number of CJK
characters plus the number of English words with punctuation excluded.
The embedding is a total function, so `smartSplit` always returns a
value (never throws) on every input string. -/
theorem c10_smartSplit_bound (cfg : SplitCfg) (text : List Char)
    (hmax : 1 ≤ cfg.maxChars) :
    ∀ line ∈ smartSplit cfg text, getLength line ≤ cfg.maxChars := by
  unfold smartSplit
  refine foldl_preserve (fun acc => ∀ l ∈ acc, getLength l ≤ cfg.maxChars)
    _ ?_ _ [] (by intro l hl; exact absurd hl (List.not_mem_nil l))
  intro acc para hacc
  dsimp only
  exact foldl_preserve (fun acc => ∀ l ∈ acc, getLength l ≤ cfg.maxChars)
    (procSentence cfg) (fun b a hb => procSentence_bound cfg hmax b a hb)
    _ acc hacc

/-- Witness for `c10_smartSplit_bound`: a mixed sentence split at
`maxChars = 5`, checking the bound on a produced line. -/
theorem c10_smartSplit_bound_witness :
    1 ≤ (5 : Nat) ∧
    getLength ['今', '天', '天', '氣', '真'] ≤ 5 :=
  ⟨by decide,
    c10_smartSplit_bound ⟨5, true⟩
      ("你好嗎。今天天氣真好".data) (by decide)
      ['今', '天', '天', '氣', '真'] (by decide)⟩

end SoulTalk
